import Mathlib

/-!
Verification of the mooc-grader core against its specification.

The development shallowly embeds the two source modules:

* `access/types/forms.py` — the `GradedForm` class: form construction from an
  exercise schema (including the tamper-evident sample manifest for
  `pick_randomly` groups) and grading of submitted answers; and
* `grader/actions.py` — the grading-action helpers, in particular the
  `gitlabquery` action and the line-oriented output parsers
  `_find_point_lines` and `_parse_difftests`.

Python strings are modelled as `String`/`List Char`, dictionaries with a fixed
key set as structures with `Option` fields for optional keys, `self.fields`
as an insertion-ordered association list, and fallible code as `Except`.
External collaborators (the keyed hash `make_hash`, `random.sample`,
`random_ascii`, `template_to_str`, the `re` module, file and HTTP access)
are supplied as explicit parameters.
-/

namespace MoocGrader

/-! ## Python string primitives -/

/-- Python `str.split(sep)` for a one-character separator, on character
lists.  `"".split(sep) == [""]` and separators at the ends produce empty
chunks, exactly as in Python. -/
def splitChar (sep : Char) : List Char → List (List Char)
  | [] => [[]]
  | c :: rest =>
    match splitChar sep rest with
    | [] => [[]]
    | l :: ls => if c = sep then [] :: l :: ls else (c :: l) :: ls

/-- Python `sep.join(chunks)` for a one-character separator. -/
def joinChar (sep : Char) : List (List Char) → List Char
  | [] => []
  | [x] => x
  | x :: y :: t => x ++ sep :: joinChar sep (y :: t)

/-- Characters removed by Python `str.strip()` (ASCII whitespace). -/
def isPySpace (c : Char) : Bool :=
  c = ' ' ∨ c = '\t' ∨ c = '\n' ∨ c = '\r' ∨ c = '\x0b' ∨ c = '\x0c'

/-- Python `str.strip()`. -/
def pyStrip (l : List Char) : List Char :=
  (l.dropWhile isPySpace).reverse.dropWhile isPySpace |>.reverse

/-- Value of a decimal digit character. -/
def digitVal (c : Char) : Nat := c.toNat - 48

/-- Decimal digit character of a value below ten. -/
def digitChar10 (n : Nat) : Char :=
  match n with
  | 0 => '0' | 1 => '1' | 2 => '2' | 3 => '3' | 4 => '4'
  | 5 => '5' | 6 => '6' | 7 => '7' | 8 => '8' | _ => '9'

/-- Decimal digit string with explicit fuel (structural recursion, so that
concrete names evaluate by kernel reduction). -/
def natCharsFuel : Nat → Nat → List Char
  | 0, _ => []
  | fuel + 1, n =>
    if n < 10 then [digitChar10 n]
    else natCharsFuel fuel (n / 10) ++ [digitChar10 (n % 10)]

/-- Decimal digit string of a natural number, most significant digit first;
the digits produced by Python `"%d" % n` / `str(n)`. -/
def natChars (n : Nat) : List Char := natCharsFuel (n + 1) n

/-- Python digit grammar after the sign: digits with single underscores
allowed between digits, accumulating the value. -/
def pyDigitsAux : List Char → Nat → Option Nat
  | [], acc => some acc
  | '_' :: c :: rest, acc =>
    if c.isDigit then pyDigitsAux rest (acc * 10 + digitVal c) else none
  | c :: rest, acc =>
    if c.isDigit then pyDigitsAux rest (acc * 10 + digitVal c) else none

/-- Nonempty digit sequence (first character must be a digit). -/
def pyDigits : List Char → Option Nat
  | [] => none
  | c :: rest => if c.isDigit then pyDigitsAux rest (digitVal c) else none

/-- Python `int(s)` on a string: optional surrounding whitespace, optional
sign, then decimal digits with single interior underscores.  `none` models a
raised `ValueError`. -/
def pyInt (l : List Char) : Option Int :=
  match pyStrip l with
  | '+' :: rest => (pyDigits rest).map Int.ofNat
  | '-' :: rest => (pyDigits rest).map (fun n => -(Int.ofNat n))
  | rest => (pyDigits rest).map Int.ofNat

/-- Python list indexing `l[i]`, including negative indices from the end;
`none` models a raised `IndexError`. -/
def pyIndex (l : List α) (i : Int) : Option α :=
  if 0 ≤ i then l.get? i.toNat
  else if (-i).toNat ≤ l.length then l.get? (l.length - (-i).toNat) else none

/-! ## Positional names (`field_%d`, `group_%d`, `option_%d`) -/

def fieldName (i : Nat) : String := "field_" ++ ⟨natChars i⟩

def groupName (i : Nat) : String := "group_" ++ ⟨natChars i⟩

def optionName (i : Nat) : String := "option_" ++ ⟨natChars i⟩

/-! Injectivity of the positional names. -/

/-- Decimal value of a digit list, used only to invert `natChars`. -/
def charsVal (l : List Char) : Nat := l.foldl (fun acc c => acc * 10 + digitVal c) 0

theorem charsVal_append (xs ys : List Char) :
    charsVal (xs ++ ys) = (ys.foldl (fun acc c => acc * 10 + digitVal c) (charsVal xs)) := by
  simp [charsVal, List.foldl_append]

theorem digitVal_digitChar10 (n : Nat) (h : n < 10) : digitVal (digitChar10 n) = n := by
  interval_cases n <;> decide

theorem charsVal_natCharsFuel : ∀ fuel n, n < fuel → charsVal (natCharsFuel fuel n) = n := by
  intro fuel
  induction fuel with
  | zero => intro n h; omega
  | succ fuel ih =>
    intro n h
    by_cases h10 : n < 10
    · simp [natCharsFuel, h10, charsVal, digitVal_digitChar10 n h10]
    · have hdiv : n / 10 < fuel := by
        have h1 : n / 10 < n := Nat.div_lt_self (by omega) (by norm_num)
        omega
      simp only [natCharsFuel, h10, if_false]
      rw [charsVal_append, ih (n / 10) hdiv]
      simp [List.foldl, digitVal_digitChar10 (n % 10) (Nat.mod_lt n (by norm_num))]
      omega

theorem charsVal_natChars (n : Nat) : charsVal (natChars n) = n :=
  charsVal_natCharsFuel (n + 1) n (Nat.lt_succ_self n)

theorem natChars_injective : Function.Injective natChars := by
  intro a b h
  have := charsVal_natChars a
  rw [h, charsVal_natChars] at this
  omega

theorem string_mk_injective {l₁ l₂ : List Char} (h : (⟨l₁⟩ : String) = ⟨l₂⟩) : l₁ = l₂ := by
  injection h

theorem fieldName_injective : Function.Injective fieldName := by
  intro a b h
  apply natChars_injective
  have hd : ("field_" ++ (⟨natChars a⟩ : String)).data = ("field_" ++ (⟨natChars b⟩ : String)).data := by
    rw [show ("field_" ++ (⟨natChars a⟩ : String)) = fieldName a from rfl, h]; rfl
  simpa [String.data_append] using hd

theorem optionName_injective : Function.Injective optionName := by
  intro a b h
  apply natChars_injective
  have hd : ("option_" ++ (⟨natChars a⟩ : String)).data = ("option_" ++ (⟨natChars b⟩ : String)).data := by
    rw [show ("option_" ++ (⟨natChars a⟩ : String)) = optionName a from rfl, h]; rfl
  simpa [String.data_append] using hd

/-! ## Data model of `access/types/forms.py`

Configuration dictionaries become structures; a key that the code reads with
a `KeyError` possibility is an `Option` field, a key read through
`dict.get(..., default)` is a plain field holding the default. -/

/-- One entry of a field's `options` list. -/
structure FieldOpt where
  label : Option String := none
  correct : Bool := false
  hint : String := ""
deriving DecidableEq, Repr

/-- One entry of a table field's `rows` list. -/
structure TableRow where
  label : Option String := none
  correct_options : List Bool := []
  points : Int := 0
  hint : String := ""
deriving DecidableEq, Repr

/-- One field configuration dictionary. `ftype` is the `"type"` key and
`includeTmpl` the `"include"` key. -/
structure FieldCfg where
  ftype : Option String := none
  title : Option String := none
  required : Bool := false
  points : Int := 0
  more : Option String := none
  includeTmpl : Option String := none
  options : List FieldOpt := []
  rows : Option (List TableRow) := none
  correct : Option String := none
  regex : Option String := none
  hint : String := ""
deriving DecidableEq, Repr

/-- One field group dictionary.  `fieldsSel` is the `"_fields"` key that
`__init__` stores into the group. -/
structure FieldGroup where
  name : Option String := none
  title : Option String := none
  group_errors : Bool := false
  pick_randomly : Option Nat := none
  fields : Option (List FieldCfg) := none
  fieldsSel : Option (List FieldCfg) := none
deriving DecidableEq, Repr

/-- The exercise configuration dictionary (the keys the form code reads). -/
structure Exercise where
  secret : Option String := none
  fieldgroups : Option (List FieldGroup) := none
deriving DecidableEq, Repr

/-- The submitted POST data keys read by `__init__` (`_nonce`, `_sample`,
`_checksum`); a missing key reads as `""` through `.get(key, '')`. -/
structure PostData where
  nonce : Option String := none
  sample : Option String := none
  checksum : Option String := none
deriving DecidableEq, Repr

/-- Python-level failures of the embedded code. -/
inductive PyError where
  | configError (msg : String)
  | permissionDenied (msg : String)
  | nameError (varName : String)
  | indexError
  | keyError
  | valueError
  | typeError
  | attributeError
deriving DecidableEq, Repr

/-- The Django widget class selected for a field (rendering detail; only its
identity matters to the embedded logic, via the `choice_list` flag). -/
inductive Widget where
  | checkboxMulti | radioSel | selectW | textInput | textareaW
deriving DecidableEq, Repr

/-- A widget attribute dictionary (`widget_attrs`): the `"class"` key and
the `"readonly"` key that `add_field` may set.  `add_field`'s default
argument `widget_attrs={'class': 'form-control'}` is a single dictionary
created once and shared across all calls that do not pass their own dict,
so its state must be threaded through the build and across builds. -/
structure WidgetAttrs where
  cls : Option String := none
  readonly : Bool := false
deriving DecidableEq, Repr

/-- The initial state of `add_field`'s shared default `widget_attrs` dict. -/
def initialWidgetAttrs : WidgetAttrs := { cls := some "form-control" }

/-- The runtime field instance: the attributes the code sets on a Django
field object.  `Option` marks attributes that are only sometimes created.
`widget_attrs` records the attribute dictionary passed to the widget, as
its value at field-creation time. -/
structure FieldInfo where
  ftype : String
  label : String
  more : Option String := none
  points : Int := 0
  required : Bool := false
  choice_list : Bool := false
  widget_attrs : WidgetAttrs := {}
  group_errors : Bool := false
  row_label : Option (Option String) := none
  open_set : Option String := none
  set_title : Option String := none
  close_set : Bool := false
  open_table : Bool := false
  close_table : Bool := false
  grade_points : Option Int := none
  max_points : Option Int := none
  hints : Option String := none
deriving DecidableEq, Repr

/-- Model of `self.fields`: an insertion-ordered dictionary from field names to field
instances. -/
abbrev FieldDict := List (String × FieldInfo)

/-- Dictionary lookup, `d[k]` as an `Option`. -/
def dictGet : FieldDict → String → Option FieldInfo
  | [], _ => none
  | (k', v) :: rest, k => if k' = k then some v else dictGet rest k

/-- Dictionary assignment `d[k] = v` (replaces in place, appends if new). -/
def dictSet : FieldDict → String → FieldInfo → FieldDict
  | [], k, v => [(k, v)]
  | (k', v') :: rest, k, v =>
    if k' = k then (k, v) :: rest else (k', v') :: dictSet rest k v

/-- Attribute mutation through a held object reference: update the entry at
`k` if present, no effect otherwise. -/
def dictUpd : FieldDict → String → (FieldInfo → FieldInfo) → FieldDict
  | [], _, _ => []
  | (k', v) :: rest, k, f =>
    if k' = k then (k', f v) :: rest else (k', v) :: dictUpd rest k f

/-- Attribute mutation through a fresh subscript `d[k].attr = ...`: a missing
key is a `KeyError`. -/
def dictAttr (st : FieldDict) (k : String) (f : FieldInfo → FieldInfo) :
    Except PyError FieldDict :=
  if (dictGet st k).isSome then .ok (dictUpd st k f) else .error .keyError

/-- Update through an optional name (used where the code holds `f[0]` /
`f[-1]` references that are present by construction). -/
def dictUpdAt (st : FieldDict) (n : Option String) (f : FieldInfo → FieldInfo) : FieldDict :=
  match n with
  | none => st
  | some k => dictUpd st k f

/-- External collaborators of the form code, passed in explicitly:
`make_hash`, `settings.AJAX_KEY`, `random.sample` (indexed by the group
counter), `template_to_str` and `random_ascii(16)`. -/
structure Env where
  hash : String → String → String
  ajaxKey : String := ""
  randomSample : Nat → Nat → Nat → List Nat := fun _ _ _ => []
  templateStr : String → String := fun _ => ""
  randomAscii : String := ""

/-! ## Building (`GradedForm.__init__` and helpers) -/

/-- Model of `GradedForm.create_more`. -/
def createMore (env : Env) (cfg : FieldCfg) : Option String :=
  let more := (match cfg.more with | some m => m | none => "")
    ++ (match cfg.includeTmpl with | some inc => env.templateStr inc | none => "")
  if more = "" then none else some more

/-- Model of `GradedForm.create_choices`. -/
def createChoices (cfg : FieldCfg) : List (String × String) :=
  (List.range cfg.options.length).zip cfg.options |>.map
    (fun p => (optionName p.1, match p.2.label with | some l => l | none => ""))

/-- Model of `GradedForm.add_field`: builds one field instance and stores
it under its positional name; returns the advanced counter, the produced
name list and the (possibly mutated) shared default `widget_attrs` dict.
`attrsArg = some a` models a call passing its own attrs dict `a` (the `{}`
literals at the checkbox/radio/table call sites); `attrsArg = none` models
a call using the shared default dict `defAttrs`, which the
`widget_attrs['readonly'] = True` assignment then mutates in place when the
form is disabled. -/
def addField (env : Env) (disabled : Bool) (defAttrs : WidgetAttrs) (st : FieldDict)
    (i : Nat) (cfg : FieldCfg) (widget : Widget)
    (choices : Option (List (String × String))) (attrsArg : Option WidgetAttrs) :
    Except PyError (Nat × List String × FieldDict × WidgetAttrs) :=
  match cfg.ftype with
  | none => .error .keyError
  | some t =>
    match cfg.title with
    | none => .error .keyError
    | some title =>
      let attrs0 := match attrsArg with | some a => a | none => defAttrs
      let attrs := if disabled then { attrs0 with readonly := true } else attrs0
      let defAttrs2 := match attrsArg with | some _ => defAttrs | none => attrs
      let field : FieldInfo := {
        ftype := t
        label := title
        more := createMore env cfg
        points := cfg.points
        required := cfg.required
        choice_list := choices.isSome && widget ≠ .selectW
        widget_attrs := attrs }
      .ok (i + 1, [fieldName i], dictSet st (fieldName i) field, defAttrs2)

/-- The row loop of `GradedForm.add_table_fields` (each row passes a fresh
`{}` attrs dict, so the shared default dict is never touched here). -/
def tableRowsLoop (env : Env) (disabled : Bool) (defAttrs : WidgetAttrs) (cfg : FieldCfg)
    (widget : Widget) (choices : List (String × String)) :
    List TableRow → Nat → FieldDict → List String →
    Except PyError (Nat × FieldDict × List String × WidgetAttrs)
  | [], i, st, names => .ok (i, st, names, defAttrs)
  | row :: rest, i, st, names => do
    let (i', fi, st', defAttrs2) ←
      addField env disabled defAttrs st i cfg widget (some choices) (some {})
    let st'' := dictUpdAt st' fi.head? (fun f => { f with row_label := some row.label })
    tableRowsLoop env disabled defAttrs2 cfg widget choices rest i' st'' (names ++ fi)

/-- Model of `GradedForm.add_table_fields`: one field instance per configured row; an
empty row list reaches `fields[0]` on an empty list, an `IndexError`. -/
def addTableFields (env : Env) (disabled : Bool) (defAttrs : WidgetAttrs) (st : FieldDict)
    (i : Nat) (cfg : FieldCfg) (widget : Widget) :
    Except PyError (Nat × List String × FieldDict × WidgetAttrs) := do
  let choices := createChoices cfg
  let rows := match cfg.rows with | some rs => rs | none => []
  let (i', st', names, defAttrs2) ←
    tableRowsLoop env disabled defAttrs cfg widget choices rows i st []
  match names with
  | [] => .error .indexError
  | n0 :: _ =>
    let st'' := dictUpd st' n0 (fun f => { f with open_table := true })
    let st''' := dictUpdAt st'' names.getLast? (fun f => { f with close_table := true })
    .ok (i', names, st''', defAttrs2)

/-- Dispatch on `field["type"]` inside the `__init__` field loop.  The
checkbox/radio/table call sites pass a fresh `{}` attrs dict; the
dropdown/select/text/textarea call sites use the shared default dict. -/
def buildOneField (env : Env) (disabled : Bool) (defAttrs : WidgetAttrs) (st : FieldDict)
    (i : Nat) (gName : Option String) (cfg : FieldCfg) :
    Except PyError (Nat × List String × FieldDict × WidgetAttrs) :=
  match cfg.ftype with
  | none =>
    match gName with
    | none => .error .keyError
    | some nm =>
      .error (.configError ("Missing required \"type\" in field configuration for: " ++ nm))
  | some t =>
    if t = "checkbox" then
      addField env disabled defAttrs st i cfg .checkboxMulti (some (createChoices cfg)) (some {})
    else if t = "radio" then
      addField env disabled defAttrs st i cfg .radioSel (some (createChoices cfg)) (some {})
    else if t = "dropdown" ∨ t = "select" then
      addField env disabled defAttrs st i cfg .selectW (some (createChoices cfg)) none
    else if t = "text" then
      addField env disabled defAttrs st i cfg .textInput none none
    else if t = "textarea" then
      addField env disabled defAttrs st i cfg .textareaW none none
    else if t = "table-radio" then
      addTableFields env disabled defAttrs st i cfg .radioSel
    else if t = "table-checkbox" then
      addTableFields env disabled defAttrs st i cfg .checkboxMulti
    else .error (.configError ("Unknown field type: " ++ t))

/-- The per-group field loop of `__init__`: builds each selected field, sets
`group_errors` on every produced instance, `open_set`/`set_title` on the
first instance of the group and `close_set` on the last. -/
def groupFieldsLoop (env : Env) (disabled : Bool) (groupErrors : Bool) (g : Nat)
    (gName : Option String) (gTitle : Option String) (selLen : Nat) :
    List FieldCfg → Nat → Nat → FieldDict → WidgetAttrs →
    Except PyError (Nat × FieldDict × WidgetAttrs)
  | [], _, i, st, defAttrs => .ok (i, st, defAttrs)
  | cfg :: rest, j, i, st, defAttrs => do
    let (i', f, st₁, defAttrs2) ← buildOneField env disabled defAttrs st i gName cfg
    let st₂ := f.foldl (fun acc n => dictUpd acc n (fun fi => { fi with group_errors := groupErrors })) st₁
    let st₃ :=
      if j = 0 then
        dictUpdAt st₂ f.head? (fun fi => { fi with open_set := some (groupName g), set_title := gTitle })
      else st₂
    let st₄ :=
      if j ≥ selLen - 1 then
        dictUpdAt st₃ f.getLast? (fun fi => { fi with close_set := true })
      else st₃
    groupFieldsLoop env disabled groupErrors g gName gTitle selLen rest (j + 1) i' st₄ defAttrs2

/-- Traversal state threaded through the group loop of `__init__`.
`postSamples = none` models the `post_samples` local being unbound. -/
structure TravSt where
  i : Nat
  disabled : Bool
  selfGroupErrors : Bool
  postSamples : Option (List String)
  dict : FieldDict
  defAttrs : WidgetAttrs
  samples : List String
  groupsOut : List FieldGroup
deriving Repr

/-- Selection of the `_fields` list for one group: the `pick_randomly`
branch of `__init__`.  Returns the selected fields, the new `disabled` flag,
the remaining `post_samples` and the accumulated `samples`. -/
def selectGroupFields (env : Env) (dataPresent : Bool) (g : Nat) (s : TravSt)
    (grp : FieldGroup) (gfields : List FieldCfg) :
    Except PyError (List FieldCfg × Bool × Option (List String) × List String) :=
  match grp.pick_randomly with
  | some k =>
    if dataPresent then
      match s.postSamples with
      | none => .error (.nameError "post_samples")
      | some ps =>
        if ps.length > 0 then do
          let tok := ps.headD ""
          let indexes ← (splitChar '-' tok.data).mapM
            (fun tchars => match pyInt tchars with
              | some v => .ok v
              | none => .error .valueError)
          let sel ← indexes.mapM
            (fun ix => match pyIndex gfields ix with
              | some fcfg => .ok fcfg
              | none => .error .indexError)
          .ok (sel, true, some ps.tail, s.samples)
        else
          .ok ([], true, some ps, s.samples)
    else
      if k > gfields.length then .error .valueError
      else do
        let indexes := env.randomSample g gfields.length k
        let samples' := s.samples ++ [(⟨joinChar '-' (indexes.map natChars)⟩ : String)]
        let sel ← indexes.mapM
          (fun ix => match gfields.get? ix with
            | some fcfg => .ok fcfg
            | none => .error .indexError)
        .ok (sel, s.disabled, s.postSamples, samples')
  | none => .ok (gfields, s.disabled, s.postSamples, s.samples)

/-- The group loop of `__init__`.  Each traversed group receives its
`"_fields"` entry (`fieldsSel`) in the returned group list. -/
def groupsLoop (env : Env) (dataPresent : Bool) :
    List FieldGroup → Nat → TravSt → Except PyError TravSt
  | [], _, s => .ok s
  | grp :: rest, g, s =>
    match grp.fields with
    | none => .error (.configError "Missing required \"fields\" in field group configuration")
    | some gfields => do
      let groupErrors := grp.group_errors
      let (sel, disabled', ps', samples') ← selectGroupFields env dataPresent g s grp gfields
      let grp' := { grp with fieldsSel := some sel }
      let (i', st', defAttrs') ← groupFieldsLoop env disabled' groupErrors g grp.name grp.title
        sel.length sel 0 s.i s.dict s.defAttrs
      groupsLoop env dataPresent rest (g + 1)
        { i := i', disabled := disabled', selfGroupErrors := s.selfGroupErrors || groupErrors,
          postSamples := ps', dict := st', defAttrs := defAttrs', samples := samples',
          groupsOut := s.groupsOut ++ [grp'] }

/-- What `__init__` leaves behind: the (mutated) exercise configuration, the
field dictionary and the manifest data of a freshly randomized form. -/
structure BuildOutput where
  exercise : Exercise
  fields : FieldDict
  disabled : Bool
  group_errors : Bool
  defaultAttrs : WidgetAttrs := {}
  nonce : Option String := none
  sample : Option String := none
  checksum : Option String := none
deriving DecidableEq, Repr

/-- The manifest secret: `self.exercise.get('secret') or settings.AJAX_KEY`. -/
def secretOf (env : Env) (ex : Exercise) : String :=
  match ex.secret with
  | some s => if s = "" then env.ajaxKey else s
  | none => env.ajaxKey

/-- Model of `GradedForm.samples_hash`. -/
def samplesHash (env : Env) (ex : Exercise) (nonce sample : String) : String :=
  env.hash (secretOf env ex) (nonce ++ sample)

/-- The checksum gate at the top of `__init__`: with bound data carrying
non-empty `_nonce` and `_sample`, a checksum mismatch is a `PermissionDenied`
and a match binds `post_samples`; otherwise `post_samples` stays unbound. -/
def checkSamples (env : Env) (ex : Exercise) :
    Option PostData → Except PyError (Option (List String))
  | none => .ok none
  | some d =>
    let nonce := match d.nonce with | some s => s | none => ""
    let sample := match d.sample with | some s => s | none => ""
    if nonce ≠ "" ∧ sample ≠ "" then
      if samplesHash env ex nonce sample ≠ (match d.checksum with | some s => s | none => "") then
        .error (.permissionDenied "Invalid checksum")
      else
        .ok (some ((splitChar '/' sample.data).map (fun l => (⟨l⟩ : String))))
    else .ok none

/-- Model of `GradedForm.__init__` for a form bound to `data` (or unbound when
`data = none`), on the exercise configuration `exercise`. -/
def gradedFormInit (env : Env) (defAttrs : WidgetAttrs) (exercise : Exercise)
    (data : Option PostData) : Except PyError BuildOutput :=
  match exercise.fieldgroups with
  | none => .error (.configError "Missing required \"fieldgroups\" in exercise configuration")
  | some gs => do
    let ps0 ← checkSamples env exercise data
    let s ← groupsLoop env data.isSome gs 0
      { i := 0, disabled := false, selfGroupErrors := false, postSamples := ps0,
        dict := [], defAttrs := defAttrs, samples := [], groupsOut := [] }
    if s.samples ≠ [] then
      let nonce := env.randomAscii
      let sample : String := ⟨joinChar '/' (s.samples.map String.data)⟩
      .ok { exercise := { exercise with fieldgroups := some s.groupsOut },
            fields := s.dict, disabled := s.disabled, group_errors := s.selfGroupErrors,
            defaultAttrs := s.defAttrs,
            nonce := some nonce, sample := some sample,
            checksum := some (samplesHash env exercise nonce sample) }
    else
      .ok { exercise := { exercise with fieldgroups := some s.groupsOut },
            fields := s.dict, disabled := s.disabled, group_errors := s.selfGroupErrors,
            defaultAttrs := s.defAttrs }

/-! ## Grading (`GradedForm.grade` and helpers) -/

/-- A cleaned submitted value: a string (radio/dropdown/text) or a list of
strings (checkbox selections). -/
inductive PyVal where
  | str (s : String)
  | list (vs : List String)
deriving DecidableEq, Repr

/-- Model of `GradedForm.append_hint`: appends a non-empty hint not already present. -/
def appendHint (hints : List String) (hint : String) : List String :=
  if hint ≠ "" ∧ hint ∉ hints then hints ++ [hint] else hints

/-- Python `name in value` for a cleaned value: list membership, substring
test on a string, `TypeError` on `None`. -/
def pyInOpt (nm : String) : Option PyVal → Except PyError Bool
  | some (.list vs) => .ok (nm ∈ vs)
  | some (.str s) => .ok (decide (nm.data <:+: s.data))
  | none => .error .typeError

/-- Python `name == value` for a cleaned value (never raises). -/
def pyEqStr (nm : String) : Option PyVal → Bool
  | some (.str s) => nm = s
  | _ => false

/-- The option loop of `grade_checkbox`, carrying `correct_exists`,
`correct` and the hint list. -/
def gcLoop : List FieldOpt → Nat → Option PyVal → Bool → Bool → List String →
    Except PyError (Bool × Bool × List String)
  | [], _, _, ce, cr, hs => .ok (ce, cr, hs)
  | opt :: rest, i, v, ce, cr, hs => do
    let nm := optionName i
    if opt.correct then
      let mem ← pyInOpt nm v
      if mem then gcLoop rest (i + 1) v true cr hs
      else gcLoop rest (i + 1) v true false (appendHint hs opt.hint)
    else
      let mem ← pyInOpt nm v
      if mem then gcLoop rest (i + 1) v ce false (appendHint hs opt.hint)
      else gcLoop rest (i + 1) v ce cr hs

/-- Model of `GradedForm.grade_checkbox` on an option list: all flagged options and
no others must be selected; vacuously correct with no flagged option. -/
def gradeCheckboxF (opts : List FieldOpt) (v : Option PyVal) (hints : List String) :
    Except PyError (Bool × List String) :=
  (gcLoop opts 0 v false true hints).map (fun r => (!r.1 || r.2.1, r.2.2))

/-- The option loop of `grade_radio`. -/
def grLoop : List FieldOpt → Nat → Option PyVal → Bool → Bool → List String →
    Bool × Bool × List String
  | [], _, _, ce, cr, hs => (ce, cr, hs)
  | opt :: rest, i, v, ce, cr, hs =>
    let nm := optionName i
    if opt.correct then
      if pyEqStr nm v then grLoop rest (i + 1) v true true hs
      else grLoop rest (i + 1) v true cr (appendHint hs opt.hint)
    else
      if pyEqStr nm v then grLoop rest (i + 1) v ce cr (appendHint hs opt.hint)
      else grLoop rest (i + 1) v ce cr hs

/-- Model of `GradedForm.grade_radio` on an option list: the selection must equal one
flagged option; vacuously correct with no flagged option. -/
def gradeRadioF (opts : List FieldOpt) (v : Option PyVal) (hints : List String) :
    Bool × List String :=
  let r := grLoop opts 0 v false false hints
  (!r.1 || r.2.1, r.2.2)

/-- Model of `GradedForm.grade_text`: trimmed equality against `correct`, else a
regex match (the `re` module is the external parameter `rm`), else
vacuously correct.  A non-string value has no `.strip()`. -/
def gradeText (rm : String → String → Bool) (cfg : FieldCfg) (v : Option PyVal)
    (hints : List String) : Except PyError (Bool × List String) :=
  match v with
  | some (.str s) =>
    let stripped : String := ⟨pyStrip s.data⟩
    let correct :=
      match cfg.correct with
      | some c => decide (stripped = c)
      | none =>
        match cfg.regex with
        | some rgx => rm rgx stripped
        | none => true
    if correct then .ok (true, hints) else .ok (false, appendHint hints cfg.hint)
  | _ => .error .attributeError

/-- Model of `GradedForm.row_options`: maps a table row's `correct_options` onto the
shared option list, carrying the row's hint. -/
def rowOptions (cfg : FieldCfg) (row : TableRow) : List FieldOpt :=
  (List.range cfg.options.length).map
    (fun i => { hint := row.hint, correct := row.correct_options.getD i false })

/-- Result of `grade_field`: the advanced counter, the field's correctness,
the awarded points and the updated field dictionary. -/
structure GFOut where
  next : Nat
  ok : Bool
  pts : Int
  dict : FieldDict
deriving Repr

/-- State of the row loop in the table branch of `grade_field`: the counter,
`all_ok`, the hint list, `points`, `max_points` and the last row's name. -/
structure TLOut where
  i : Nat
  all_ok : Bool
  hints : List String
  points : Int
  max_points : Int
  lastName : Option String
deriving Repr

/-- The row loop of the table branch of `grade_field`. -/
def tableGradeLoop (rm : String → String → Bool) (cd : String → Option PyVal)
    (tbl : String) (cfg : FieldCfg) :
    List TableRow → TLOut → Except PyError TLOut
  | [], s => .ok s
  | row :: rest, s => do
    let nm := fieldName s.i
    let v := cd nm
    let (rowOk, hs') ←
      if tbl = "table-radio" then .ok (gradeRadioF (rowOptions cfg row) v s.hints)
      else gradeCheckboxF (rowOptions cfg row) v s.hints
    if rowOk then
      tableGradeLoop rm cd tbl cfg rest
        { i := s.i + 1, all_ok := s.all_ok, hints := hs',
          points := s.points + row.points, max_points := s.max_points + row.points,
          lastName := some nm }
    else
      tableGradeLoop rm cd tbl cfg rest
        { i := s.i + 1, all_ok := false, hints := hs',
          points := s.points, max_points := s.max_points + row.points,
          lastName := some nm }

/-- The per-type dispatch of `grade_field` for non-table fields. -/
def gradeSimpleValue (rm : String → String → Bool) (cfg : FieldCfg) (t : String)
    (v : Option PyVal) : Except PyError (Bool × List String) :=
  if t = "checkbox" then gradeCheckboxF cfg.options v []
  else if t = "radio" ∨ t = "dropdown" ∨ t = "select" then
    .ok (gradeRadioF cfg.options v [])
  else if t = "text" ∨ t = "textarea" then gradeText rm cfg v []
  else .error (.configError ("Unknown field type for grading: " ++ t))

/-- Model of `GradedForm.grade_field`: grades the field at counter `i` against the
cleaned data `cd`, writing `grade_points`, `max_points` and `hints` into the
field dictionary. -/
def gradeField (rm : String → String → Bool) (fields : FieldDict)
    (cd : String → Option PyVal) (i : Nat) (cfg : FieldCfg) :
    Except PyError GFOut :=
  match cfg.ftype with
  | none => .error .keyError
  | some t =>
    if t = "table-radio" ∨ t = "table-checkbox" then do
      let firstNm := fieldName i
      let rows := match cfg.rows with | some rs => rs | none => []
      let s ← tableGradeLoop rm cd t cfg rows
        { i := i, all_ok := true, hints := [], points := cfg.points,
          max_points := cfg.points, lastName := none }
      let st₁ ← dictAttr fields firstNm (fun f => { f with grade_points := some s.points })
      let st₂ ← dictAttr st₁ firstNm (fun f => { f with max_points := some s.max_points })
      match s.lastName with
      | none => .error (.nameError "name")
      | some nm => do
        let st₃ ← dictAttr st₂ nm
          (fun f => { f with hints := some (String.intercalate " " s.hints) })
        .ok { next := s.i, ok := s.all_ok, pts := s.points, dict := st₃ }
    else do
      let nm := fieldName i
      let v := cd nm
      let (ok, hs) ← gradeSimpleValue rm cfg t v
      let pts := cfg.points
      let st₁ ← dictAttr fields nm
        (fun f => { f with grade_points := some (if ok then pts else 0) })
      let st₂ ← dictAttr st₁ nm (fun f => { f with max_points := some pts })
      let st₃ ← dictAttr st₂ nm (fun f => { f with hints := some (String.intercalate " " hs) })
      .ok { next := i + 1, ok := ok, pts := if ok then pts else 0, dict := st₃ }

/-- Result of `GradedForm.grade`: total points, group names with an error,
individually wrong field names, and the updated field dictionary. -/
structure GradeOutput where
  points : Int
  error_groups : List String
  error_fields : List String
  fields : FieldDict
deriving Repr

/-- The inner field loop of `grade` for one group. -/
def gradeFieldsLoop (rm : String → String → Bool) (cd : String → Option PyVal) (g : Nat) :
    List FieldCfg → Nat → Int → List String → List String → FieldDict →
    Except PyError (Nat × Int × List String × List String × FieldDict)
  | [], i, pts, egs, efs, st => .ok (i, pts, egs, efs, st)
  | cfg :: rest, i, pts, egs, efs, st => do
    let prev := i
    let o ← gradeField rm st cd i cfg
    let pts' := pts + o.pts
    if o.ok then
      gradeFieldsLoop rm cd g rest o.next pts' egs efs o.dict
    else
      let efs' := efs ++ [fieldName prev]
      let gn := groupName g
      let egs' := if gn ∈ egs then egs else egs ++ [gn]
      gradeFieldsLoop rm cd g rest o.next pts' egs' efs' o.dict

/-- The group loop of `grade`; each group is graded over its stored
`"_fields"` selection. -/
def gradeGroupsLoop (rm : String → String → Bool) (cd : String → Option PyVal) :
    List FieldGroup → Nat → Nat → Int → List String → List String → FieldDict →
    Except PyError (Int × List String × List String × FieldDict)
  | [], _, _, pts, egs, efs, st => .ok (pts, egs, efs, st)
  | grp :: rest, g, i, pts, egs, efs, st =>
    match grp.fieldsSel with
    | none => .error .keyError
    | some sel => do
      let (i', pts', egs', efs', st') ← gradeFieldsLoop rm cd g sel i pts egs efs st
      gradeGroupsLoop rm cd rest (g + 1) i' pts' egs' efs' st'

/-- Model of `GradedForm.grade` on a built form: walks the stored field selections
with the same positional counter as the build. -/
def gradeForm (rm : String → String → Bool) (exercise : Exercise)
    (fields : FieldDict) (cd : String → Option PyVal) :
    Except PyError GradeOutput :=
  match exercise.fieldgroups with
  | none => .error .keyError
  | some gs =>
    (gradeGroupsLoop rm cd gs 0 0 0 [] [] fields).map
      (fun r => { points := r.1, error_groups := r.2.1, error_fields := r.2.2.1, fields := r.2.2.2 })

/-! ## `grader/actions.py`: output parsers and the gitlab check -/

/-- Result of an external process invocation (`invoke_script` /
`invoke_sandbox`): exit code, stdout, stderr. -/
structure ShellResult where
  out : String
  err : String
  code : Int
deriving DecidableEq, Repr

/-- The action result dictionary returned by grading actions. -/
structure ActionResult where
  points : Int := 0
  max_points : Int := 0
  out : String := ""
  err : String := ""
  stop : Bool := false
deriving DecidableEq, Repr

/-- Lines bearing the `TotalPoints: ` prefix (`l.startswith("TotalPoints: ")`). -/
def isTotalLine (l : List Char) : Bool := "TotalPoints: ".data.isPrefixOf l

/-- Lines bearing the `MaxPoints: ` prefix (`l.startswith("MaxPoints: ")`). -/
def isMaxLine (l : List Char) : Bool := "MaxPoints: ".data.isPrefixOf l

/-- The line loop of `_find_point_lines`: a `TotalPoints: ` / `MaxPoints: `
prefixed line updates the respective value when its remainder parses as an
integer and is dropped from the output either way; other lines are kept. -/
def fplGo : List (List Char) → Int → Int → List (List Char) →
    Int × Int × List (List Char)
  | [], points, maxPoints, acc => (points, maxPoints, acc.reverse)
  | l :: rest, points, maxPoints, acc =>
    if isTotalLine l then
      match pyInt (l.drop 13) with
      | some v => fplGo rest v maxPoints acc
      | none => fplGo rest points maxPoints acc
    else if isMaxLine l then
      match pyInt (l.drop 11) with
      | some v => fplGo rest points v acc
      | none => fplGo rest points maxPoints acc
    else fplGo rest points maxPoints (l :: acc)

/-- Model of `_find_point_lines`. -/
def findPointLines (r : ShellResult) : ActionResult :=
  let (points, maxPoints, lines) := fplGo (splitChar '\n' r.out.data) 0 0 []
  { points := points, max_points := maxPoints,
    out := ⟨joinChar '\n' lines⟩, err := r.err, stop := r.code ≠ 0 }

/-- One committed record of `_parse_difftests`: the three joined section
texts and the failure flag. -/
structure DiffRec where
  description : String
  expected : String
  actual : String
  fail : Bool
deriving DecidableEq, Repr

/-- The section a free line is currently appended to. -/
inductive DiffSection where
  | desc | exp | act
deriving DecidableEq, Repr

/-- Commit one record from the accumulated section line lists; `fail`
compares the line lists, the stored texts are their joins. -/
def mkDiffRec (d e a : List (List Char)) : DiffRec :=
  { description := ⟨joinChar '\n' d⟩, expected := ⟨joinChar '\n' e⟩,
    actual := ⟨joinChar '\n' a⟩, fail := e ≠ a }

/-- The line loop of `_parse_difftests`. -/
def pdGo : List (List Char) → List (List Char) → List (List Char) → List (List Char) →
    DiffSection → List DiffRec → List DiffRec
  | [], d, e, a, _, tests => tests ++ [mkDiffRec d e a]
  | l :: rest, d, e, a, sec, tests =>
    if "Testcase:".data.isPrefixOf l then
      if d ≠ [] ∧ e ≠ [] ∧ a ≠ [] then
        pdGo rest [l.drop 10] [] [] .desc (tests ++ [mkDiffRec d e a])
      else
        pdGo rest (d ++ [l.drop 10]) e a .desc tests
    else if "Expected:".data.isPrefixOf l then
      pdGo rest d (e ++ [l.drop 10]) a .exp tests
    else if "Actual:".data.isPrefixOf l then
      pdGo rest d e (a ++ [l.drop 8]) .act tests
    else
      match sec with
      | .desc => pdGo rest (d ++ [l]) e a sec tests
      | .exp => pdGo rest d (e ++ [l]) a sec tests
      | .act => pdGo rest d e (a ++ [l]) sec tests

/-- Model of `_parse_difftests` on a captured output text; lines before any marker
default to the `actual` section. -/
def parseDifftests (output : String) : List DiffRec :=
  pdGo (splitChar '\n' output.data) [] [] [] .act []

/-! ### `gitlabquery` -/

/-- The JSON document returned by the gitlab projects API, restricted to the
fields the check reads; `none` models an absent field (`KeyError` on
access). -/
structure GitlabFork where
  path_with_namespace : Option String := none
deriving DecidableEq, Repr

structure GitlabData where
  public : Option Bool := none
  web_url : Option String := none
  forked_from_project : Option GitlabFork := none
deriving DecidableEq, Repr

/-- The action configuration keys `gitlabquery` reads; `isPrivate` is the
`"private"` key. -/
structure GitlabAction where
  token : Option String := none
  isPrivate : Option Bool := none
  forks : Option String := none
deriving DecidableEq, Repr

/-- The exercise configuration key `gitlabquery` reads. -/
structure GitlabExercise where
  require_gitlab : Option String := none
deriving DecidableEq, Repr

/-- External effects of `gitlabquery`: reading `user/gitsource` from the
submission directory, URL quoting, and the JSON fetch.  An `.error` oracle
value models a raised exception. -/
structure GitlabEnv where
  readGitsource : Except Unit String
  quotePlus : String → String := fun s => s
  getJson : String → Except Unit GitlabData := fun _ => .error ()

/-- The two policy checks inside the `try` block, on the fetched data.  The
`.error` branch carries the value of `err` at the point the exception was
raised (the caught exception falls through to the final `return`). -/
def gitlabChecks (data : GitlabData) (action : GitlabAction) : Except String String := do
  let err₁ ←
    if action.isPrivate = some true then
      match data.public with
      | none => Except.error ""
      | some pub =>
        if pub then
          match data.web_url with
          | none => Except.error ""
          | some wu =>
            pure (wu ++ " has public access in settings! Remove it to grade exercises.")
        else pure ""
    else pure ""
  match action.forks with
  | none => pure err₁
  | some fpath =>
    let bad : Except String Bool :=
      match data.forked_from_project with
      | none => pure true
      | some fork =>
        match fork.path_with_namespace with
        | none => Except.error err₁
        | some p => pure (p ≠ fpath)
    match bad with
    | .error e => Except.error e
    | .ok b =>
      if b then
        match data.web_url with
        | none => Except.error err₁
        | some wu => pure (wu ++ " is not forked from " ++ fpath ++ ".")
      else pure err₁

/-- The `try` block of `gitlabquery`: any exception leaves `err` at whatever
value it had reached (empty before the policy checks). -/
def gitlabTryBody (env : GitlabEnv) (host token : String) (action : GitlabAction) : String :=
  match env.readGitsource with
  | .error _ => ""
  | .ok source =>
    match source.data.indexOf? ':' with
    | none => ""
    | some idx =>
      let rid := env.quotePlus ⟨source.data.drop (idx + 1)⟩
      let url := "https://" ++ host ++ "/api/v3/projects/" ++ rid ++ "?private_token=" ++ token
      match env.getJson url with
      | .error _ => ""
      | .ok data =>
        match gitlabChecks data action with
        | .ok e => e
        | .error e => e

/-- Model of `gitlabquery`: checks required configuration, runs the best-effort
check, and reports `stop` exactly when a policy error message was set. -/
def gitlabquery (env : GitlabEnv) (exercise : GitlabExercise) (action : GitlabAction) :
    Except PyError ActionResult :=
  match exercise.require_gitlab with
  | none => .error (.configError "This action needs require_gitlab in exercise.")
  | some host =>
    match action.token with
    | none => .error (.configError "Token missing from configuration for gitlab privacy check.")
    | some token =>
      let err := gitlabTryBody env host token action
      .ok { points := 0, max_points := 0, out := "", err := err, stop := err ≠ "" }

/-! ## Dictionary lemmas -/

theorem dictGet_dictUpd_self (st : FieldDict) (k : String) (f : FieldInfo → FieldInfo) :
    dictGet (dictUpd st k f) k = (dictGet st k).map f := by
  induction st with
  | nil => simp [dictGet, dictUpd]
  | cons p rest ih =>
    by_cases h : p.1 = k
    · simp [dictGet, dictUpd, h]
    · simp [dictGet, dictUpd, h, ih]

theorem dictGet_dictUpd_ne (st : FieldDict) (k k' : String) (f : FieldInfo → FieldInfo)
    (h : k ≠ k') : dictGet (dictUpd st k f) k' = dictGet st k' := by
  induction st with
  | nil => simp [dictUpd]
  | cons p rest ih =>
    by_cases hp : p.1 = k
    · simp [dictGet, dictUpd, hp, h]
    · simp [dictGet, dictUpd, hp, ih]

theorem dictAttr_ok {st st' : FieldDict} {k : String} {f : FieldInfo → FieldInfo}
    (h : dictAttr st k f = .ok st') : st' = dictUpd st k f ∧ (dictGet st k).isSome := by
  unfold dictAttr at h
  by_cases hs : (dictGet st k).isSome
  · simp [hs] at h; exact ⟨h.symm, hs⟩
  · simp [hs] at h

/-! ## The point-line parser: characterization (C8) -/

/-- The successfully parsed `TotalPoints: ` values, in order of occurrence. -/
def totalValues (ls : List (List Char)) : List Int :=
  ls.filterMap (fun l => if isTotalLine l then pyInt (l.drop 13) else none)

/-- The successfully parsed `MaxPoints: ` values, in order of occurrence. -/
def maxValues (ls : List (List Char)) : List Int :=
  ls.filterMap (fun l => if isMaxLine l then pyInt (l.drop 11) else none)

/-- The lines that survive into the visible output: exactly those bearing
neither prefix, in their original order. -/
def keptLines (ls : List (List Char)) : List (List Char) :=
  ls.filter (fun l => !isTotalLine l && !isMaxLine l)

theorem isMaxLine_eq_false {l : List Char} (h : isTotalLine l = true) :
    isMaxLine l = false := by
  cases hmx : isMaxLine l
  · rfl
  · exfalso
    unfold isTotalLine at h
    unfold isMaxLine at hmx
    rw [List.isPrefixOf_iff_prefix] at h hmx
    have hor := List.prefix_or_prefix_of_prefix h hmx
    revert hor
    decide

theorem fplGo_spec (ls : List (List Char)) : ∀ p m acc,
    fplGo ls p m acc =
      ((totalValues ls).getLastD p, (maxValues ls).getLastD m,
        acc.reverse ++ keptLines ls) := by
  induction ls with
  | nil => intro p m acc; simp [fplGo, totalValues, maxValues, keptLines]
  | cons l rest ih =>
    intro p m acc
    by_cases h1 : isTotalLine l
    · have h2 : isMaxLine l = false := isMaxLine_eq_false h1
      have hm : maxValues (l :: rest) = maxValues rest := by simp [maxValues, h2]
      have hk : keptLines (l :: rest) = keptLines rest := by simp [keptLines, h1]
      cases hv : pyInt (l.drop 13) with
      | some v =>
        have ht : totalValues (l :: rest) = v :: totalValues rest := by
          simp [totalValues, h1, hv]
        simp only [fplGo, h1, if_true, hv, ih]
        rw [ht, hm, hk, List.getLastD_cons]
      | none =>
        have ht : totalValues (l :: rest) = totalValues rest := by
          simp [totalValues, h1, hv]
        simp only [fplGo, h1, if_true, hv, ih]
        rw [ht, hm, hk]
    · by_cases h2 : isMaxLine l
      · have ht : totalValues (l :: rest) = totalValues rest := by simp [totalValues, h1]
        have hk : keptLines (l :: rest) = keptLines rest := by simp [keptLines, h2]
        cases hv : pyInt (l.drop 11) with
        | some v =>
          have hm : maxValues (l :: rest) = v :: maxValues rest := by
            simp [maxValues, h2, hv]
          simp only [fplGo, h1, Bool.false_eq_true, if_false, h2, if_true, hv, ih]
          rw [ht, hm, hk, List.getLastD_cons]
        | none =>
          have hm : maxValues (l :: rest) = maxValues rest := by
            simp [maxValues, h2, hv]
          simp only [fplGo, h1, Bool.false_eq_true, if_false, h2, if_true, hv, ih]
          rw [ht, hm, hk]
      · have ht : totalValues (l :: rest) = totalValues rest := by simp [totalValues, h1]
        have hm : maxValues (l :: rest) = maxValues rest := by simp [maxValues, h2]
        have hk : keptLines (l :: rest) = l :: keptLines rest := by
          simp [keptLines, h1, h2]
        simp only [fplGo, h1, Bool.false_eq_true, if_false, h2, ih]
        rw [ht, hm, hk]
        simp

/-- C8: the point-line parser returns the last successfully parsed integer
after each of the two literal prefixes (zero when none occurs), removes every
line bearing either prefix from the returned output (also when the remainder
fails to parse), passes all other lines through unchanged in order, and in
particular maps `"hello\nTotalPoints: 7\nworld\nMaxPoints: 10"` to
`points = 7`, `max_points = 10`, `out = "hello\nworld"`. -/
theorem c8_point_lines_spec :
    (∀ r : ShellResult,
      findPointLines r = {
        points := (totalValues (splitChar '\n' r.out.data)).getLastD 0,
        max_points := (maxValues (splitChar '\n' r.out.data)).getLastD 0,
        out := ⟨joinChar '\n' (keptLines (splitChar '\n' r.out.data))⟩,
        err := r.err, stop := decide (r.code ≠ 0) })
    ∧ findPointLines { out := "hello\nTotalPoints: 7\nworld\nMaxPoints: 10", err := "", code := 0 } =
        { points := 7, max_points := 10, out := "hello\nworld", err := "", stop := false } := by
  constructor
  · intro r
    unfold findPointLines
    rw [fplGo_spec]
    simp
  · decide

/-! ## `gitlabquery` (C4) -/

/-- C4 (amended): with the required configuration present, `gitlabquery`
always returns a result (exceptions from the external steps are contained),
with zero points, empty output and `stop` set exactly when a policy error
message was produced; an exception in the file-reading step yields an empty
error message and `stop = false`. -/
theorem c4_gitlabquery_amended :
    (∀ (env : GitlabEnv) (ex : GitlabExercise) (act : GitlabAction) (host token : String),
      ex.require_gitlab = some host → act.token = some token →
      gitlabquery env ex act =
        .ok { points := 0, max_points := 0, out := "",
              err := gitlabTryBody env host token act,
              stop := decide (gitlabTryBody env host token act ≠ "") })
    ∧ (∀ (env : GitlabEnv) (ex : GitlabExercise) (act : GitlabAction) (host token : String),
        ex.require_gitlab = some host → act.token = some token →
        env.readGitsource = .error () →
        gitlabquery env ex act =
          .ok { points := 0, max_points := 0, out := "", err := "", stop := false }) := by
  constructor
  · intro env ex act host token h1 h2
    simp [gitlabquery, h1, h2]
  · intro env ex act host token h1 h2 h3
    simp [gitlabquery, gitlabTryBody, h1, h2, h3]

def gexC4 : GitlabExercise := { require_gitlab := some "gitlab.local" }

def gactC4 : GitlabAction := { token := some "tok" }

def genvC4 : GitlabEnv := { readGitsource := .error () }

/-- C4, counterexample to the claim as stated: with the required
configuration present and an exception while reading the submitted git
source, the returned result has an empty error message and `stop = false`
(the claim demands a non-empty description and `stop = true`). -/
theorem c4_counterexample :
    gitlabquery genvC4 gexC4 gactC4 =
      .ok { points := 0, max_points := 0, out := "", err := "", stop := false } := by
  rfl

/-- Witness: C4's amended theorem applied at a concrete environment. -/
theorem c4_witness :
    gitlabquery { readGitsource := .ok "git@gitlab.local:me/proj.git" } gexC4 gactC4 =
      .ok { points := 0, max_points := 0, out := "",
            err := gitlabTryBody { readGitsource := .ok "git@gitlab.local:me/proj.git" }
              "gitlab.local" "tok" gactC4,
            stop := decide (gitlabTryBody { readGitsource := .ok "git@gitlab.local:me/proj.git" }
              "gitlab.local" "tok" gactC4 ≠ "") } :=
  c4_gitlabquery_amended.1 { readGitsource := .ok "git@gitlab.local:me/proj.git" }
    gexC4 gactC4 "gitlab.local" "tok" rfl rfl

/-! ## Zero-row tables (C10) -/

/-- C10: a table field whose `rows` list is empty or absent makes building
fail with an `IndexError` on the empty field-instance list (not the
`ConfigError` used for malformed schemas), and makes grading fail with an
unbound-local error on `name` when it reaches the hint assignment. -/
theorem c10_zero_row_tables (cfg : FieldCfg) (t : String)
    (ht : cfg.ftype = some t) (htbl : t = "table-radio" ∨ t = "table-checkbox")
    (hrows : cfg.rows = none ∨ cfg.rows = some []) :
    (∀ (env : Env) (disabled : Bool) (defAttrs : WidgetAttrs) (st : FieldDict)
        (i : Nat) (gName : Option String),
      buildOneField env disabled defAttrs st i gName cfg = .error .indexError)
    ∧ (∀ (rm : String → String → Bool) (fields : FieldDict) (cd : String → Option PyVal)
        (i : Nat), (dictGet fields (fieldName i)).isSome →
        gradeField rm fields cd i cfg = .error (.nameError "name")) := by
  have hre : (match cfg.rows with | some rs => rs | none => []) = ([] : List TableRow) := by
    cases hrows with
    | inl h => rw [h]
    | inr h => rw [h]
  constructor
  · intro env disabled defAttrs st i gName
    cases htbl with
    | inl h =>
      subst h
      simp [buildOneField, ht, addTableFields, hre, tableRowsLoop, bind, Except.bind]
    | inr h =>
      subst h
      simp [buildOneField, ht, addTableFields, hre, tableRowsLoop, bind, Except.bind]
  · intro rm fields cd i hp
    have htb : (t = "table-radio" ∨ t = "table-checkbox") = True := by
      simp [htbl]
    have hp2 : (dictGet (dictUpd fields (fieldName i)
        (fun f => { f with grade_points := some cfg.points })) (fieldName i)).isSome := by
      rw [dictGet_dictUpd_self]
      simpa using hp
    simp [gradeField, ht, htb, hre, tableGradeLoop, dictAttr, hp, hp2, bind, Except.bind]

def envA : Env := { hash := fun k s => "#" ++ k ++ "|" ++ s }

def cfgTR0 : FieldCfg := { ftype := some "table-radio", title := some "T", rows := some [] }

/-- Witness for C10: the theorem applied to a concrete zero-row
`table-radio` field. -/
theorem c10_witness :
    buildOneField envA false initialWidgetAttrs [] 0 (some "g") cfgTR0 = .error .indexError
    ∧ gradeField (fun _ _ => false) [("field_0", { ftype := "table-radio", label := "T" })]
        (fun _ => none) 0 cfgTR0 = .error (.nameError "name") :=
  ⟨(c10_zero_row_tables cfgTR0 "table-radio" rfl (Or.inl rfl) (Or.inr rfl)).1
      envA false initialWidgetAttrs [] 0 (some "g"),
   (c10_zero_row_tables cfgTR0 "table-radio" rfl (Or.inl rfl) (Or.inr rfl)).2
      (fun _ _ => false) [("field_0", { ftype := "table-radio", label := "T" })]
      (fun _ => none) 0 (by decide)⟩

/-! ## The sample-manifest gate of `__init__` (C1) -/

def exC1 : Exercise :=
  { fieldgroups := some [
      { name := some "g1", pick_randomly := some 1,
        fields := some [{ ftype := some "text", title := some "Q" }] }] }

/-- C1: evaluation at the failing inputs.  On a bound form over a schema
with a `pick_randomly` group, a missing or empty `_nonce`/`_sample` makes
construction crash with an unbound-local (`NameError`) read of
`post_samples` instead of completing as an unrandomized submission, while a
present but mismatched checksum is rejected with `PermissionDenied` before
the sample is used. -/
theorem c1_missing_nonce_crashes :
    gradedFormInit envA initialWidgetAttrs exC1 (some {}) = .error (.nameError "post_samples")
    ∧ gradedFormInit envA initialWidgetAttrs exC1
        (some { nonce := some "", sample := some "0", checksum := some "x" }) =
        .error (.nameError "post_samples")
    ∧ gradedFormInit envA initialWidgetAttrs exC1
        (some { nonce := some "n", sample := some "0", checksum := some "bad" }) =
        .error (.permissionDenied "Invalid checksum") :=
  ⟨rfl, rfl, rfl⟩

/-! ## Build purity (C5) -/

def exC5 : Exercise :=
  { fieldgroups := some [
      { name := some "g", fields := some [{ ftype := some "text", title := some "T" }] }] }

def exC5mut : Exercise :=
  { fieldgroups := some [
      { name := some "g", fields := some [{ ftype := some "text", title := some "T" }],
        fieldsSel := some [{ ftype := some "text", title := some "T" }] }] }

/-- A randomized exercise whose single picked field is a text field (text
fields pass no attrs dict of their own, so they use `add_field`'s shared
default dict). -/
def exLeak : Exercise :=
  { fieldgroups := some [
      { name := some "g1", pick_randomly := some 1,
        fields := some [{ ftype := some "text", title := some "Q" }] }] }

/-- Bound data for `exLeak` with a valid checksum under `envA`. -/
def dLeak : PostData := { nonce := some "n", sample := some "0", checksum := some "#|n0" }

/-- C5, counterexample to the claim as stated, refuting both conjuncts.
First, building a form from a schema with no randomization succeeds and
returns an exercise configuration that differs from the one passed in — the
build writes the selected `"_fields"` list into the group.  Second, one
build invocation does leave shared mutable state that influences a later
build of a different form: a disabled build (bound randomized resubmission)
sets `readonly` in `add_field`'s shared default `widget_attrs` dict, and a
subsequent non-disabled build of a different schema then produces a text
field instance with `readonly` set — which a build from the pristine
default dict does not. -/
theorem c5_counterexample :
    ((gradedFormInit envA initialWidgetAttrs exC5 none).toOption.map (fun o => o.exercise) =
        some exC5mut
      ∧ exC5mut ≠ exC5)
    ∧ (gradedFormInit envA initialWidgetAttrs exLeak (some dLeak)).toOption.map
        (fun o => (o.disabled, o.defaultAttrs)) =
        some (true, { cls := some "form-control", readonly := true })
    ∧ (gradedFormInit envA { cls := some "form-control", readonly := true } exC5 none).toOption.map
        (fun o => (o.disabled, (dictGet o.fields "field_0").map (fun f => f.widget_attrs.readonly))) =
        some (false, some true)
    ∧ (gradedFormInit envA initialWidgetAttrs exC5 none).toOption.map
        (fun o => (dictGet o.fields "field_0").map (fun f => f.widget_attrs.readonly)) =
        some (some false) :=
  ⟨⟨rfl, by decide⟩, rfl, rfl, rfl⟩

theorem groupsLoop_groupsOut (env : Env) (dp : Bool) :
    ∀ (gs : List FieldGroup) (g : Nat) (s s' : TravSt),
      groupsLoop env dp gs g s = .ok s' →
      ∃ sels : List (List FieldCfg), sels.length = gs.length ∧
        s'.groupsOut = s.groupsOut ++
          List.zipWith (fun grp sel => { grp with fieldsSel := some sel }) gs sels := by
  intro gs
  induction gs with
  | nil =>
    intro g s s' h
    refine ⟨[], rfl, ?_⟩
    simp only [groupsLoop] at h
    cases h
    simp
  | cons grp rest ih =>
    intro g s s' h
    simp only [groupsLoop] at h
    cases hf : grp.fields with
    | none => simp only [hf] at h; exact Except.noConfusion h
    | some gfields =>
      simp only [hf, bind, Except.bind] at h
      cases hsel : selectGroupFields env dp g s grp gfields with
      | error e => simp only [hsel] at h; exact Except.noConfusion h
      | ok q =>
        obtain ⟨sel, disabled', ps', samples'⟩ := q
        simp only [hsel] at h
        cases hgl : groupFieldsLoop env disabled' grp.group_errors g grp.name grp.title
            sel.length sel 0 s.i s.dict s.defAttrs with
        | error e => simp only [hgl] at h; exact Except.noConfusion h
        | ok r =>
          obtain ⟨i', st', da'⟩ := r
          simp only [hgl] at h
          obtain ⟨sels, hlen, hout⟩ := ih (g + 1) _ s' h
          refine ⟨sel :: sels, by simp [hlen], ?_⟩
          rw [hout]
          simp [List.zipWith]
          exact hf.symm

theorem dictGet_dictSet_self (st : FieldDict) (k : String) (v : FieldInfo) :
    dictGet (dictSet st k v) k = some v := by
  induction st with
  | nil => simp [dictSet, dictGet]
  | cons p rest ih =>
    by_cases hp : p.1 = k
    · simp [dictSet, dictGet, hp]
    · simp [dictSet, dictGet, hp, ih]

/-- C5 (amended): a successful build returns the exercise configuration
mutated in exactly one way — every field group receives a `"_fields"` entry
holding the selected field list, everything else in the configuration being
returned unchanged — and building is NOT free of shared mutable state: an
`add_field` call that uses the shared default `widget_attrs` dict hands the
created field instance that dict's current contents (with `readonly` set
when the form is disabled) and leaves exactly those contents in the shared
dict for every later call, so a disabled build makes later builds of
different forms produce `readonly` field instances, as the concrete
two-build run shows. -/
theorem c5_build_effects :
    (∀ (env : Env) (defAttrs : WidgetAttrs) (ex : Exercise) (data : Option PostData)
        (out : BuildOutput), gradedFormInit env defAttrs ex data = .ok out →
      ∃ gs sels, ex.fieldgroups = some gs ∧ sels.length = gs.length ∧
        out.exercise = { ex with fieldgroups := some (List.zipWith
          (fun grp sel => { grp with fieldsSel := some sel }) gs sels) })
    ∧ (∀ (env : Env) (disabled : Bool) (defAttrs : WidgetAttrs) (st : FieldDict)
        (i : Nat) (cfg : FieldCfg) (w : Widget) (ch : Option (List (String × String)))
        (r : Nat × List String × FieldDict × WidgetAttrs),
      addField env disabled defAttrs st i cfg w ch none = .ok r →
      r.2.2.2 = (if disabled then { defAttrs with readonly := true } else defAttrs) ∧
      ∃ fi, dictGet r.2.2.1 (fieldName i) = some fi ∧
        fi.widget_attrs = (if disabled then { defAttrs with readonly := true } else defAttrs))
    ∧ (gradedFormInit envA initialWidgetAttrs exLeak (some dLeak)).toOption.map
        (fun o => o.defaultAttrs) = some { cls := some "form-control", readonly := true }
    ∧ (gradedFormInit envA { cls := some "form-control", readonly := true } exC5 none).toOption.map
        (fun o => (o.disabled, (dictGet o.fields "field_0").map (fun f => f.widget_attrs.readonly))) =
        some (false, some true) := by
  refine ⟨?_, ?_, rfl, rfl⟩
  · intro env defAttrs ex data out h
    unfold gradedFormInit at h
    cases hg : ex.fieldgroups with
    | none => simp only [hg] at h; exact Except.noConfusion h
    | some gs =>
      simp only [hg, bind, Except.bind] at h
      cases hc : checkSamples env ex data with
      | error e => simp only [hc] at h; exact Except.noConfusion h
      | ok ps0 =>
        simp only [hc] at h
        cases hgl : groupsLoop env data.isSome gs 0
            { i := 0, disabled := false, selfGroupErrors := false, postSamples := ps0,
              dict := [], defAttrs := defAttrs, samples := [], groupsOut := [] } with
        | error e => simp only [hgl] at h; exact Except.noConfusion h
        | ok s =>
          simp only [hgl] at h
          obtain ⟨sels, hlen, hout⟩ := groupsLoop_groupsOut env data.isSome gs 0 _ s hgl
          simp only [List.nil_append] at hout
          refine ⟨gs, sels, rfl, hlen, ?_⟩
          by_cases hsm : s.samples ≠ []
          · rw [if_pos hsm] at h
            cases h
            simp [hout]
          · rw [if_neg hsm] at h
            cases h
            simp [hout]
  · intro env disabled defAttrs st i cfg w ch r h
    cases hft : cfg.ftype with
    | none => simp only [addField, hft] at h; exact Except.noConfusion h
    | some t =>
      cases hti : cfg.title with
      | none => simp only [addField, hft, hti] at h; exact Except.noConfusion h
      | some title =>
        simp only [addField, hft, hti] at h
        cases h
        refine ⟨rfl, ?_⟩
        rw [dictGet_dictSet_self]
        exact ⟨_, rfl, rfl⟩

def outC5 : BuildOutput :=
  { exercise := exC5mut,
    fields := [("field_0",
      { ftype := "text", label := "T", widget_attrs := initialWidgetAttrs,
        open_set := some "group_0", close_set := true })],
    disabled := false, group_errors := false, defaultAttrs := initialWidgetAttrs }

def cfgLeakText : FieldCfg := { ftype := some "text", title := some "Q" }

def rC5a : Nat × List String × FieldDict × WidgetAttrs :=
  (1, ["field_0"],
   [("field_0",
     { ftype := "text", label := "Q",
       widget_attrs := { cls := some "form-control", readonly := true } })],
   { cls := some "form-control", readonly := true })

/-- Witness: the amended C5 theorem applied to a concrete build and a
concrete disabled default-dict `add_field` call. -/
theorem c5_witness :
    (∃ gs sels, exC5.fieldgroups = some gs ∧ sels.length = gs.length ∧
      outC5.exercise = { exC5 with fieldgroups := some (List.zipWith
        (fun grp sel => { grp with fieldsSel := some sel }) gs sels) })
    ∧ (rC5a.2.2.2 = (if true then { initialWidgetAttrs with readonly := true }
          else initialWidgetAttrs) ∧
        ∃ fi, dictGet rC5a.2.2.1 (fieldName 0) = some fi ∧
          fi.widget_attrs = (if true then { initialWidgetAttrs with readonly := true }
            else initialWidgetAttrs)) :=
  ⟨c5_build_effects.1 envA initialWidgetAttrs exC5 none outC5 rfl,
   c5_build_effects.2.1 envA true initialWidgetAttrs [] 0 cfgLeakText .textInput none rC5a rfl⟩

/-! ## Group error reporting (C2) -/

/-- Overwrite the `group_errors` flags of a group list with the given
booleans (groups beyond the list keep their flag). -/
def zipSetGE : List FieldGroup → List Bool → List FieldGroup
  | [], _ => []
  | gs, [] => gs
  | grp :: gs, b :: bs => { grp with group_errors := b } :: zipSetGE gs bs

/-- Overwrite the `group_errors` flags of an exercise's groups. -/
def setGroupErrors (ex : Exercise) (bs : List Bool) : Exercise :=
  { ex with fieldgroups := ex.fieldgroups.map (fun gs => zipSetGE gs bs) }

theorem gradeGroupsLoop_group_errors_indep (rm : String → String → Bool)
    (cd : String → Option PyVal) :
    ∀ (gs : List FieldGroup) (bs : List Bool) (g : Nat) (i : Nat) (pts : Int)
      (egs efs : List String) (st : FieldDict),
      gradeGroupsLoop rm cd (zipSetGE gs bs) g i pts egs efs st =
      gradeGroupsLoop rm cd gs g i pts egs efs st := by
  intro gs
  induction gs with
  | nil => intro bs g i pts egs efs st; cases bs <;> rfl
  | cons grp rest ih =>
    intro bs g i pts egs efs st
    cases bs with
    | nil => rfl
    | cons b bs =>
      simp only [zipSetGE, gradeGroupsLoop]
      cases hs : grp.fieldsSel with
      | none => rfl
      | some sel =>
        simp only [hs, bind, Except.bind]
        cases hfl : gradeFieldsLoop rm cd g sel i pts egs efs st with
        | error e => rfl
        | ok r =>
          obtain ⟨i', pts', egs', efs', st'⟩ := r
          exact ih bs (g + 1) i' pts' egs' efs' st'

def exC2 : Exercise :=
  { fieldgroups := some [
      { name := some "g", group_errors := true,
        fieldsSel := some [
          { ftype := some "checkbox", title := some "T", points := 10,
            options := [{ label := some "A", correct := true }, { label := some "B" }] }] }] }

def fldsC2 : FieldDict := [("field_0", { ftype := "checkbox", label := "T", points := 10 })]

def cdC2 : String → Option PyVal :=
  fun n => if n = "field_0" then some (.list ["option_1"]) else none

/-- C2 (amended): `grade` records both the wrong field's name and its owning
group's name regardless of the group's `group_errors` flag — the flag has no
influence on the returned grading result at all (it only marks the built
field instances for rendering-time suppression). -/
theorem c2_group_errors_amended :
    (∀ (rm : String → String → Bool) (ex : Exercise) (fields : FieldDict)
        (cd : String → Option PyVal) (bs : List Bool),
      gradeForm rm (setGroupErrors ex bs) fields cd = gradeForm rm ex fields cd)
    ∧ ((gradeForm (fun _ _ => false) exC2 fldsC2 cdC2).toOption.map
        (fun o => (o.points, o.error_groups, o.error_fields)) =
        some (0, ["group_0"], ["field_0"]))
    ∧ ((gradeForm (fun _ _ => false) (setGroupErrors exC2 [false]) fldsC2 cdC2).toOption.map
        (fun o => (o.points, o.error_groups, o.error_fields)) =
        some (0, ["group_0"], ["field_0"])) := by
  refine ⟨?_, rfl, rfl⟩
  intro rm ex fields cd bs
  unfold gradeForm setGroupErrors
  cases hg : ex.fieldgroups with
  | none => rfl
  | some gs =>
    simp only [Option.map_some']
    rw [gradeGroupsLoop_group_errors_indep]

/-- C2, counterexample to the claim as stated: a wrong field belonging to a
group whose `group_errors` flag is set still appears by name in the returned
list of wrong field names. -/
theorem c2_counterexample :
    (gradeForm (fun _ _ => false) exC2 fldsC2 cdC2).toOption.map
      (fun o => decide ("field_0" ∈ o.error_fields)) = some true := rfl

/-! ## Checkbox and radio correctness (C7) -/

/-- Whether any option is flagged `correct`. -/
def anyCorrect (opts : List FieldOpt) : Bool := opts.any (fun o => o.correct)

/-- The positional option names of a list of options, starting at index `i`. -/
def optNamesFrom : Nat → List FieldOpt → List String
  | _, [] => []
  | i, _ :: rest => optionName i :: optNamesFrom (i + 1) rest

/-- The positional names of the options flagged `correct`, starting at `i`. -/
def correctNamesFrom : Nat → List FieldOpt → List String
  | _, [] => []
  | i, o :: rest =>
    if o.correct then optionName i :: correctNamesFrom (i + 1) rest
    else correctNamesFrom (i + 1) rest

/-- The checkbox success criterion, stated independently of the grading
loop: every flagged option is selected and no unflagged option is. -/
def selMatches (vs : List String) : Nat → List FieldOpt → Bool
  | _, [] => true
  | i, o :: rest =>
    (if o.correct then decide (optionName i ∈ vs) else decide (optionName i ∉ vs))
      && selMatches vs (i + 1) rest

/-- Python `name in value` on a non-`None` value never raises. -/
def pyMem (nm : String) : PyVal → Bool
  | .list vs => decide (nm ∈ vs)
  | .str s => decide (nm.data <:+: s.data)

theorem pyInOpt_some (nm : String) (pv : PyVal) :
    pyInOpt nm (some pv) = .ok (pyMem nm pv) := by
  cases pv <;> rfl

theorem mem_optNamesFrom {n : String} :
    ∀ (opts : List FieldOpt) (i : Nat),
      n ∈ optNamesFrom i opts → ∃ j, j < opts.length ∧ n = optionName (i + j) := by
  intro opts
  induction opts with
  | nil => intro i h; simp [optNamesFrom] at h
  | cons o rest ih =>
    intro i h
    simp only [optNamesFrom, List.mem_cons] at h
    cases h with
    | inl h => exact ⟨0, by simp, by simpa using h⟩
    | inr h =>
      obtain ⟨j, hj, hn⟩ := ih (i + 1) h
      refine ⟨j + 1, by simp [hj], ?_⟩
      rw [hn]
      congr 1
      omega

theorem optionName_not_mem_later (i : Nat) (opts : List FieldOpt) :
    optionName i ∉ optNamesFrom (i + 1) opts := by
  intro h
  obtain ⟨j, _, hn⟩ := mem_optNamesFrom opts (i + 1) h
  have := optionName_injective hn
  omega

theorem correctNamesFrom_subset :
    ∀ (opts : List FieldOpt) (i : Nat), correctNamesFrom i opts ⊆ optNamesFrom i opts := by
  intro opts
  induction opts with
  | nil => intro i n hn; simp [correctNamesFrom] at hn
  | cons o rest ih =>
    intro i n hn
    simp only [optNamesFrom, List.mem_cons]
    by_cases hc : o.correct
    · simp only [correctNamesFrom, hc, if_true, List.mem_cons] at hn
      cases hn with
      | inl h => exact Or.inl h
      | inr h => exact Or.inr (ih (i + 1) h)
    · simp only [correctNamesFrom, hc, if_false] at hn
      exact Or.inr (ih (i + 1) hn)

theorem selMatches_cons_pos {o : FieldOpt} (hc : o.correct = true) (vs : List String)
    (i : Nat) (rest : List FieldOpt) :
    (selMatches vs i (o :: rest) = true) =
      ((optionName i ∈ vs) ∧ selMatches vs (i + 1) rest = true) := by
  simp [selMatches, hc]

theorem selMatches_cons_neg {o : FieldOpt} (hc : o.correct = false) (vs : List String)
    (i : Nat) (rest : List FieldOpt) :
    (selMatches vs i (o :: rest) = true) =
      ((optionName i ∉ vs) ∧ selMatches vs (i + 1) rest = true) := by
  simp [selMatches, hc]

theorem correctNamesFrom_cons_pos {o : FieldOpt} (hc : o.correct = true)
    (i : Nat) (rest : List FieldOpt) :
    correctNamesFrom i (o :: rest) = optionName i :: correctNamesFrom (i + 1) rest := by
  simp [correctNamesFrom, hc]

theorem correctNamesFrom_cons_neg {o : FieldOpt} (hc : o.correct = false)
    (i : Nat) (rest : List FieldOpt) :
    correctNamesFrom i (o :: rest) = correctNamesFrom (i + 1) rest := by
  simp [correctNamesFrom, hc]

theorem selMatches_iff (vs : List String) :
    ∀ (opts : List FieldOpt) (i : Nat),
      selMatches vs i opts = true ↔
        (∀ n, (n ∈ vs ∧ n ∈ optNamesFrom i opts) ↔ n ∈ correctNamesFrom i opts) := by
  intro opts
  induction opts with
  | nil => intro i; simp [selMatches, optNamesFrom, correctNamesFrom]
  | cons o rest ih =>
    intro i
    have fresh := optionName_not_mem_later i rest
    have freshCorr := fun h => fresh (correctNamesFrom_subset rest (i + 1) h)
    cases hc : o.correct with
    | true =>
      rw [selMatches_cons_pos hc, correctNamesFrom_cons_pos hc, ih (i + 1)]
      simp only [optNamesFrom]
      constructor
      · rintro ⟨hin, hrest⟩ n
        by_cases hn : n = optionName i
        · subst hn
          simp [hin]
        · simpa [hn] using hrest n
      · intro hall
        refine ⟨((hall (optionName i)).mpr (by simp)).1, ?_⟩
        intro n
        by_cases hn : n = optionName i
        · subst hn
          exact iff_of_false (fun hh => fresh hh.2) freshCorr
        · simpa [hn] using hall n
    | false =>
      rw [selMatches_cons_neg hc, correctNamesFrom_cons_neg hc, ih (i + 1)]
      simp only [optNamesFrom]
      constructor
      · rintro ⟨hout, hrest⟩ n
        by_cases hn : n = optionName i
        · subst hn
          exact iff_of_false (fun hh => hout hh.1) freshCorr
        · simpa [hn] using hrest n
      · intro hall
        constructor
        · intro hin
          exact freshCorr ((hall (optionName i)).mp (by simp [hin]))
        · intro n
          by_cases hn : n = optionName i
          · subst hn
            exact iff_of_false (fun hh => fresh hh.2) freshCorr
          · simpa [hn] using hall n

theorem grLoop_fst_no_correct :
    ∀ (opts : List FieldOpt), (∀ o ∈ opts, o.correct = false) →
      ∀ (i : Nat) (v : Option PyVal) (cr : Bool) (hs : List String),
        (grLoop opts i v false cr hs).1 = false := by
  intro opts
  induction opts with
  | nil => intro _ i v cr hs; rfl
  | cons o rest ih =>
    intro h i v cr hs
    have ho : o.correct = false := h o (by simp)
    have hrest : ∀ o ∈ rest, o.correct = false := fun o ho => h o (by simp [ho])
    simp only [grLoop, ho, Bool.false_eq_true, if_false]
    by_cases hv : pyEqStr (optionName i) v
    · simp only [hv, if_true]
      exact ih hrest (i + 1) v cr (appendHint hs o.hint)
    · simp only [hv, if_false]
      exact ih hrest (i + 1) v cr hs

theorem gcLoop_ok_ce :
    ∀ (opts : List FieldOpt) (i : Nat) (pv : PyVal) (ce cr : Bool) (hs : List String),
      ∃ cr' hs', gcLoop opts i (some pv) ce cr hs = .ok (ce || anyCorrect opts, cr', hs') := by
  intro opts
  induction opts with
  | nil => intro i pv ce cr hs; exact ⟨cr, hs, by simp [gcLoop, anyCorrect]⟩
  | cons o rest ih =>
    intro i pv ce cr hs
    by_cases hc : o.correct
    · simp only [gcLoop, hc, if_true, pyInOpt_some, bind, Except.bind]
      by_cases hm : pyMem (optionName i) pv
      · obtain ⟨cr', hs', hrec⟩ := ih (i + 1) pv true cr hs
        refine ⟨cr', hs', ?_⟩
        simp only [hm, if_true, hrec]
        simp [anyCorrect, hc]
      · obtain ⟨cr', hs', hrec⟩ := ih (i + 1) pv true false (appendHint hs o.hint)
        refine ⟨cr', hs', ?_⟩
        simp only [hm, Bool.false_eq_true, if_false, hrec]
        simp [anyCorrect, hc]
    · simp only [gcLoop, hc, Bool.false_eq_true, if_false, pyInOpt_some, bind, Except.bind]
      by_cases hm : pyMem (optionName i) pv
      · obtain ⟨cr', hs', hrec⟩ := ih (i + 1) pv ce false (appendHint hs o.hint)
        refine ⟨cr', hs', ?_⟩
        simp only [hm, if_true, hrec]
        simp [anyCorrect, hc]
      · obtain ⟨cr', hs', hrec⟩ := ih (i + 1) pv ce cr hs
        refine ⟨cr', hs', ?_⟩
        simp only [hm, Bool.false_eq_true, if_false, hrec]
        simp [anyCorrect, hc]

theorem gcLoop_list :
    ∀ (opts : List FieldOpt) (i : Nat) (vs : List String) (ce cr : Bool) (hs : List String),
      ∃ hs', gcLoop opts i (some (.list vs)) ce cr hs =
        .ok (ce || anyCorrect opts, cr && selMatches vs i opts, hs') := by
  intro opts
  induction opts with
  | nil => intro i vs ce cr hs; exact ⟨hs, by simp [gcLoop, anyCorrect, selMatches]⟩
  | cons o rest ih =>
    intro i vs ce cr hs
    by_cases hc : o.correct
    · by_cases hm : optionName i ∈ vs
      · obtain ⟨hs', hrec⟩ := ih (i + 1) vs true cr hs
        refine ⟨hs', ?_⟩
        simp [gcLoop, hc, pyInOpt_some, bind, Except.bind, pyMem, hm, hrec,
          anyCorrect, selMatches]
      · obtain ⟨hs', hrec⟩ := ih (i + 1) vs true false (appendHint hs o.hint)
        refine ⟨hs', ?_⟩
        simp [gcLoop, hc, pyInOpt_some, bind, Except.bind, pyMem, hm, hrec,
          anyCorrect, selMatches]
    · by_cases hm : optionName i ∈ vs
      · obtain ⟨hs', hrec⟩ := ih (i + 1) vs ce false (appendHint hs o.hint)
        refine ⟨hs', ?_⟩
        simp [gcLoop, hc, pyInOpt_some, bind, Except.bind, pyMem, hm, hrec,
          anyCorrect, selMatches]
      · obtain ⟨hs', hrec⟩ := ih (i + 1) vs ce cr hs
        refine ⟨hs', ?_⟩
        simp [gcLoop, hc, pyInOpt_some, bind, Except.bind, pyMem, hm, hrec,
          anyCorrect, selMatches]

/-- C7: with no option flagged `correct`, radio/dropdown/select grading and
checkbox grading accept every submitted value (vacuous correctness); with at
least one flagged option, checkbox grading succeeds exactly when the
submitted selections, restricted to the field's option names, coincide with
the flagged option names. -/
theorem c7_vacuous_and_set_equality :
    (∀ (opts : List FieldOpt), (∀ o ∈ opts, o.correct = false) →
      ∀ (v : Option PyVal) (hs : List String), (gradeRadioF opts v hs).1 = true)
    ∧ (∀ (opts : List FieldOpt), (∀ o ∈ opts, o.correct = false) →
        ∀ (pv : PyVal) (hs : List String),
          ∃ hs', gradeCheckboxF opts (some pv) hs = .ok (true, hs'))
    ∧ (∀ (opts : List FieldOpt), anyCorrect opts = true →
        ∀ (vs : List String),
          ∃ hs', gradeCheckboxF opts (some (.list vs)) [] = .ok (selMatches vs 0 opts, hs')
            ∧ (selMatches vs 0 opts = true ↔
                ∀ n, (n ∈ vs ∧ n ∈ optNamesFrom 0 opts) ↔ n ∈ correctNamesFrom 0 opts)) := by
  refine ⟨?_, ?_, ?_⟩
  · intro opts h v hs
    unfold gradeRadioF
    simp [grLoop_fst_no_correct opts h 0 v false hs]
  · intro opts h pv hs
    have hac : anyCorrect opts = false := by
      simp only [anyCorrect, List.any_eq_false]
      intro o ho
      simp [h o ho]
    obtain ⟨cr', hs', hloop⟩ := gcLoop_ok_ce opts 0 pv false true hs
    refine ⟨hs', ?_⟩
    unfold gradeCheckboxF
    rw [hloop]
    simp [hac, Except.map]
  · intro opts hac vs
    obtain ⟨hs', hloop⟩ := gcLoop_list opts 0 vs false true []
    refine ⟨hs', ?_, selMatches_iff vs opts 0⟩
    unfold gradeCheckboxF
    rw [hloop]
    simp [hac, Except.map]

def optsC7 : List FieldOpt :=
  [{ label := some "A", correct := true, hint := "ha" }, { label := some "B", hint := "hb" }]

def optsC7nf : List FieldOpt := [{ label := some "A" }, { label := some "B" }]

/-- Witness: C7 applied at concrete option lists — vacuous correctness for
an unflagged radio and checkbox, and exact set matching for a flagged
checkbox. -/
theorem c7_witness :
    (gradeRadioF optsC7nf (some (.str "option_1")) []).1 = true
    ∧ (∃ hs', gradeCheckboxF optsC7nf (some (.list ["option_0"])) [] = .ok (true, hs'))
    ∧ (∃ hs', gradeCheckboxF optsC7 (some (.list ["option_0"])) [] =
        .ok (selMatches ["option_0"] 0 optsC7, hs')
        ∧ (selMatches ["option_0"] 0 optsC7 = true ↔
            ∀ n, (n ∈ ["option_0"] ∧ n ∈ optNamesFrom 0 optsC7) ↔
              n ∈ correctNamesFrom 0 optsC7)) :=
  ⟨c7_vacuous_and_set_equality.1 optsC7nf (by decide) (some (.str "option_1")) [],
   c7_vacuous_and_set_equality.2.1 optsC7nf (by decide) (.list ["option_0"]) [],
   c7_vacuous_and_set_equality.2.2 optsC7 (by decide) ["option_0"]⟩

/-! ## Points per field (C3): characterization of `grade_field` -/

theorem gcLoop_pair_indep :
    ∀ (opts : List FieldOpt) (i : Nat) (v : Option PyVal) (ce cr : Bool) (hs hs' : List String),
      (gcLoop opts i v ce cr hs).map (fun r => (r.1, r.2.1)) =
      (gcLoop opts i v ce cr hs').map (fun r => (r.1, r.2.1)) := by
  intro opts
  induction opts with
  | nil => intro i v ce cr hs hs'; rfl
  | cons o rest ih =>
    intro i v ce cr hs hs'
    by_cases hc : o.correct
    · simp only [gcLoop, hc, if_true, bind, Except.bind]
      cases hpm : pyInOpt (optionName i) v with
      | error e => simp only [hpm]
      | ok mem =>
        simp only [hpm]
        by_cases hm : mem <;>
          simp only [hm, if_true, Bool.false_eq_true, if_false] <;> apply ih
    · simp only [gcLoop, hc, Bool.false_eq_true, if_false, bind, Except.bind]
      cases hpm : pyInOpt (optionName i) v with
      | error e => simp only [hpm]
      | ok mem =>
        simp only [hpm]
        by_cases hm : mem <;>
          simp only [hm, if_true, Bool.false_eq_true, if_false] <;> apply ih

theorem grLoop_pair_indep :
    ∀ (opts : List FieldOpt) (i : Nat) (v : Option PyVal) (ce cr : Bool) (hs hs' : List String),
      (grLoop opts i v ce cr hs).1 = (grLoop opts i v ce cr hs').1 ∧
      (grLoop opts i v ce cr hs).2.1 = (grLoop opts i v ce cr hs').2.1 := by
  intro opts
  induction opts with
  | nil => intro i v ce cr hs hs'; exact ⟨rfl, rfl⟩
  | cons o rest ih =>
    intro i v ce cr hs hs'
    by_cases hc : o.correct <;> by_cases hv : pyEqStr (optionName i) v <;>
      simp only [grLoop, hc, hv, if_true, Bool.false_eq_true, if_false] <;> apply ih

theorem gradeRadioF_fst (opts : List FieldOpt) (v : Option PyVal) (hs : List String) :
    (gradeRadioF opts v hs).1 = (gradeRadioF opts v []).1 := by
  obtain ⟨h1, h2⟩ := grLoop_pair_indep opts 0 v false false hs []
  show (!(grLoop opts 0 v false false hs).1 || (grLoop opts 0 v false false hs).2.1) = _
  rw [h1, h2]
  rfl

theorem gradeCheckboxF_fst (opts : List FieldOpt) (v : Option PyVal) (hs : List String) :
    (gradeCheckboxF opts v hs).map (fun r => r.1) =
    (gradeCheckboxF opts v []).map (fun r => r.1) := by
  unfold gradeCheckboxF
  have e : ∀ hs0 : List String,
      ((gcLoop opts 0 v false true hs0).map (fun r => (!r.1 || r.2.1, r.2.2))).map
          (fun r => r.1)
        = ((gcLoop opts 0 v false true hs0).map (fun r => (r.1, r.2.1))).map
          (fun p => !p.1 || p.2) := by
    intro hs0
    cases gcLoop opts 0 v false true hs0 <;> rfl
  rw [e, e, gcLoop_pair_indep opts 0 v false true hs []]

/-- The correctness outcome of grading one table row at counter `j`, stated
independently of the loop state. -/
def rowGradeFst (cd : String → Option PyVal) (tbl : String) (cfg : FieldCfg)
    (j : Nat) (row : TableRow) : Except PyError Bool :=
  if tbl = "table-radio" then
    .ok (gradeRadioF (rowOptions cfg row) (cd (fieldName j)) []).1
  else (gradeCheckboxF (rowOptions cfg row) (cd (fieldName j)) []).map (fun r => r.1)

/-- Sum of the points of the rows graded correct, rows indexed from `j`. -/
def sumCorrectPts (cd : String → Option PyVal) (tbl : String) (cfg : FieldCfg) :
    Nat → List TableRow → Int
  | _, [] => 0
  | j, row :: rest =>
    (match rowGradeFst cd tbl cfg j row with
      | .ok true => row.points
      | _ => 0) + sumCorrectPts cd tbl cfg (j + 1) rest

/-- Sum of the configured points of all rows. -/
def sumRowPts : List TableRow → Int
  | [] => 0
  | row :: rest => row.points + sumRowPts rest

/-- Whether every row grades correct, rows indexed from `j`. -/
def allRowsOk (cd : String → Option PyVal) (tbl : String) (cfg : FieldCfg) :
    Nat → List TableRow → Bool
  | _, [] => true
  | j, row :: rest =>
    (match rowGradeFst cd tbl cfg j row with
      | .ok b => b
      | .error _ => false) && allRowsOk cd tbl cfg (j + 1) rest

theorem tableGradeLoop_spec (rm : String → String → Bool) (cd : String → Option PyVal)
    (tbl : String) (cfg : FieldCfg) :
    ∀ (rows : List TableRow) (s s' : TLOut),
      tableGradeLoop rm cd tbl cfg rows s = .ok s' →
      s'.i = s.i + rows.length ∧
      s'.points = s.points + sumCorrectPts cd tbl cfg s.i rows ∧
      s'.max_points = s.max_points + sumRowPts rows ∧
      s'.all_ok = (s.all_ok && allRowsOk cd tbl cfg s.i rows) ∧
      s'.lastName = (if rows.isEmpty then s.lastName
        else some (fieldName (s.i + rows.length - 1))) := by
  intro rows
  induction rows with
  | nil =>
    intro s s' h
    cases h
    simp [sumCorrectPts, sumRowPts, allRowsOk]
  | cons row rest ih =>
    intro s s' h
    simp only [tableGradeLoop, bind, Except.bind] at h
    have key : ∀ (rowOk : Bool) (hs2 : List String),
        rowGradeFst cd tbl cfg s.i row = .ok rowOk →
        tableGradeLoop rm cd tbl cfg rest
          (if rowOk then
            { i := s.i + 1, all_ok := s.all_ok, hints := hs2,
              points := s.points + row.points, max_points := s.max_points + row.points,
              lastName := some (fieldName s.i) }
          else
            { i := s.i + 1, all_ok := false, hints := hs2,
              points := s.points, max_points := s.max_points + row.points,
              lastName := some (fieldName s.i) }) = .ok s' →
        s'.i = s.i + (row :: rest).length ∧
        s'.points = s.points + sumCorrectPts cd tbl cfg s.i (row :: rest) ∧
        s'.max_points = s.max_points + sumRowPts (row :: rest) ∧
        s'.all_ok = (s.all_ok && allRowsOk cd tbl cfg s.i (row :: rest)) ∧
        s'.lastName = (if (row :: rest).isEmpty then s.lastName
          else some (fieldName (s.i + (row :: rest).length - 1))) := by
      intro rowOk hs2 hrg hrec
      by_cases hok : rowOk
      · subst hok
        rw [if_pos rfl] at hrec
        obtain ⟨hi, hp, hm, ha, hl⟩ := ih _ _ hrec
        dsimp only at hi hp hm ha hl
        refine ⟨?_, ?_, ?_, ?_, ?_⟩
        · rw [hi]; simp only [List.length_cons]; omega
        · rw [hp]; simp only [sumCorrectPts, hrg]; omega
        · rw [hm]; simp only [sumRowPts]; omega
        · rw [ha]; simp only [allRowsOk, hrg, Bool.true_and]
        · rw [hl]
          cases rest with
          | nil => simp
          | cons r2 rs =>
            simp only [List.isEmpty_cons, Bool.false_eq_true, if_false, List.length_cons]
            exact congrArg (fun n => some (fieldName n)) (by omega)
      · have hok' : rowOk = false := by
          cases hb : rowOk
          · rfl
          · exact absurd hb hok
        subst hok'
        rw [if_neg (by simp)] at hrec
        obtain ⟨hi, hp, hm, ha, hl⟩ := ih _ _ hrec
        dsimp only at hi hp hm ha hl
        refine ⟨?_, ?_, ?_, ?_, ?_⟩
        · rw [hi]; simp only [List.length_cons]; omega
        · rw [hp]; simp only [sumCorrectPts, hrg]; omega
        · rw [hm]; simp only [sumRowPts]; omega
        · rw [ha]; simp only [allRowsOk, hrg, Bool.false_and, Bool.and_false]
        · rw [hl]
          cases rest with
          | nil => simp
          | cons r2 rs =>
            simp only [List.isEmpty_cons, Bool.false_eq_true, if_false, List.length_cons]
            exact congrArg (fun n => some (fieldName n)) (by omega)
    by_cases ht : tbl = "table-radio"
    · rw [if_pos ht] at h
      cases hpair : gradeRadioF (rowOptions cfg row) (cd (fieldName s.i)) s.hints with
      | mk rowOk hs2 =>
        rw [hpair] at h
        have hfst : (gradeRadioF (rowOptions cfg row) (cd (fieldName s.i)) []).1 = rowOk := by
          rw [← gradeRadioF_fst _ _ s.hints, hpair]
        have hrg : rowGradeFst cd tbl cfg s.i row = .ok rowOk := by
          simp [rowGradeFst, ht, hfst]
        exact key rowOk hs2 hrg (by
          by_cases hok : rowOk
          · subst hok
            rw [if_pos rfl]
            rw [if_pos rfl] at h
            exact h
          · have hok' : rowOk = false := by
              cases hb : rowOk
              · rfl
              · exact absurd hb hok
            subst hok'
            rw [if_neg (by simp)]
            rw [if_neg (by simp)] at h
            exact h)
    · rw [if_neg ht] at h
      cases hgc : gradeCheckboxF (rowOptions cfg row) (cd (fieldName s.i)) s.hints with
      | error e => rw [hgc] at h; exact Except.noConfusion h
      | ok pair =>
        rw [hgc] at h
        simp only [Except.bind] at h
        cases hpair : pair with
        | mk rowOk hs2 =>
          subst hpair
          have hrg : rowGradeFst cd tbl cfg s.i row = .ok rowOk := by
            have hind := gradeCheckboxF_fst (rowOptions cfg row) (cd (fieldName s.i)) s.hints
            rw [hgc] at hind
            simp only [rowGradeFst, ht, if_false]
            rw [← hind]
            rfl
          exact key rowOk hs2 hrg (by
            by_cases hok : rowOk
            · subst hok
              rw [if_pos rfl]
              rw [if_pos rfl] at h
              exact h
            · have hok' : rowOk = false := by
                cases hb : rowOk
                · rfl
                · exact absurd hb hok
              subst hok'
              rw [if_neg (by simp)]
              rw [if_neg (by simp)] at h
              exact h)

theorem dictGet_proj_hints_upd (st : FieldDict) (k k' : String) (hh : Option String) :
    (dictGet (dictUpd st k' (fun f => { f with hints := hh })) k).map
      (fun fi => (fi.grade_points, fi.max_points)) =
    (dictGet st k).map (fun fi => (fi.grade_points, fi.max_points)) := by
  by_cases hk : k' = k
  · subst hk
    rw [dictGet_dictUpd_self]
    cases dictGet st k' <;> rfl
  · rw [dictGet_dictUpd_ne _ _ _ _ hk]

theorem dictGet_isSome_dictUpd (st : FieldDict) (k k' : String) (f : FieldInfo → FieldInfo) :
    (dictGet (dictUpd st k f) k').isSome = (dictGet st k').isSome := by
  by_cases hk : k = k'
  · subst hk
    rw [dictGet_dictUpd_self]
    cases dictGet st k <;> rfl
  · rw [dictGet_dictUpd_ne _ _ _ _ hk]

/-- Decomposition of a successful `grade_field` run on a table field: the
row loop result and the three dictionary writes (`grade_points` and
`max_points` at the first row's slot, `hints` at the last row's slot). -/
theorem gradeField_table_run (rm : String → String → Bool) (fields : FieldDict)
    (cd : String → Option PyVal) (i : Nat) (cfg : FieldCfg) (t : String) (o : GFOut)
    (ht : cfg.ftype = some t) (htbl : t = "table-radio" ∨ t = "table-checkbox")
    (h : gradeField rm fields cd i cfg = .ok o) :
    ∃ (s : TLOut) (nm : String),
      tableGradeLoop rm cd t cfg (cfg.rows.getD [])
        { i := i, all_ok := true, hints := [], points := cfg.points,
          max_points := cfg.points, lastName := none } = .ok s ∧
      s.lastName = some nm ∧
      (dictGet fields (fieldName i)).isSome ∧
      (dictGet fields nm).isSome ∧
      o.next = s.i ∧ o.ok = s.all_ok ∧ o.pts = s.points ∧
      o.dict = dictUpd (dictUpd (dictUpd fields (fieldName i)
          (fun f => { f with grade_points := some s.points })) (fieldName i)
          (fun f => { f with max_points := some s.max_points })) nm
          (fun f => { f with hints := some (String.intercalate " " s.hints) }) := by
  simp only [gradeField, ht] at h
  rw [if_pos htbl] at h
  simp only [bind, Except.bind] at h
  have hrw : (match cfg.rows with | some rs => rs | none => []) = cfg.rows.getD [] := by
    cases cfg.rows <;> rfl
  rw [hrw] at h
  cases hTL : tableGradeLoop rm cd t cfg (cfg.rows.getD [])
      { i := i, all_ok := true, hints := [], points := cfg.points,
        max_points := cfg.points, lastName := none } with
  | error e => rw [hTL] at h; exact Except.noConfusion h
  | ok s =>
    rw [hTL] at h
    simp only at h
    cases hA1 : dictAttr fields (fieldName i)
        (fun f => { f with grade_points := some s.points }) with
    | error e => rw [hA1] at h; exact Except.noConfusion h
    | ok st₁ =>
      rw [hA1] at h
      simp only at h
      cases hA2 : dictAttr st₁ (fieldName i)
          (fun f => { f with max_points := some s.max_points }) with
      | error e => rw [hA2] at h; exact Except.noConfusion h
      | ok st₂ =>
        rw [hA2] at h
        simp only at h
        cases hln : s.lastName with
        | none => rw [hln] at h; exact Except.noConfusion h
        | some nm =>
          rw [hln] at h
          simp only at h
          cases hA3 : dictAttr st₂ nm
              (fun f => { f with hints := some (String.intercalate " " s.hints) }) with
          | error e => rw [hA3] at h; exact Except.noConfusion h
          | ok st₃ =>
            rw [hA3] at h
            simp only at h
            obtain ⟨hs1, hp1⟩ := dictAttr_ok hA1
            obtain ⟨hs2, _⟩ := dictAttr_ok hA2
            obtain ⟨hs3, hp3⟩ := dictAttr_ok hA3
            have hpnm : (dictGet fields nm).isSome := by
              rw [hs2, hs1, dictGet_isSome_dictUpd, dictGet_isSome_dictUpd] at hp3
              exact hp3
            cases h
            exact ⟨s, nm, rfl, hln, hp1, hpnm, rfl, rfl, rfl, by rw [hs3, hs2, hs1]⟩

/-- C3 (amended): for non-table fields the awarded points are the
configured `points` exactly when the field is correct and zero otherwise,
with `max_points` set to the configured points; for table fields the
awarded points are the configured base points plus the points of every
correct row (partial credit per row), with `max_points` the base points
plus the points of all rows. -/
theorem c3_points_amended :
    (∀ (rm : String → String → Bool) (fields : FieldDict) (cd : String → Option PyVal)
        (i : Nat) (cfg : FieldCfg) (t : String) (o : GFOut),
      cfg.ftype = some t →
      (t = "checkbox" ∨ t = "radio" ∨ t = "dropdown" ∨ t = "select" ∨
        t = "text" ∨ t = "textarea") →
      gradeField rm fields cd i cfg = .ok o →
      o.next = i + 1 ∧ o.pts = (if o.ok then cfg.points else 0) ∧
      ∃ fi, dictGet o.dict (fieldName i) = some fi ∧
        fi.grade_points = some (if o.ok then cfg.points else 0) ∧
        fi.max_points = some cfg.points)
    ∧ (∀ (rm : String → String → Bool) (fields : FieldDict) (cd : String → Option PyVal)
        (i : Nat) (cfg : FieldCfg) (t : String) (o : GFOut),
      cfg.ftype = some t →
      (t = "table-radio" ∨ t = "table-checkbox") →
      gradeField rm fields cd i cfg = .ok o →
      o.next = i + (cfg.rows.getD []).length ∧
      o.pts = cfg.points + sumCorrectPts cd t cfg i (cfg.rows.getD []) ∧
      o.ok = allRowsOk cd t cfg i (cfg.rows.getD []) ∧
      ∃ fi, dictGet o.dict (fieldName i) = some fi ∧
        fi.grade_points = some o.pts ∧
        fi.max_points = some (cfg.points + sumRowPts (cfg.rows.getD []))) := by
  constructor
  · intro rm fields cd i cfg t o ht hsimple h
    have hnt : ¬(t = "table-radio" ∨ t = "table-checkbox") := by
      rcases hsimple with rfl | rfl | rfl | rfl | rfl | rfl <;>
        rintro (hh | hh) <;> exact absurd hh (by decide)
    simp only [gradeField, ht] at h
    rw [if_neg hnt] at h
    simp only [bind, Except.bind] at h
    cases hE : gradeSimpleValue rm cfg t (cd (fieldName i)) with
    | error e => rw [hE] at h; exact Except.noConfusion h
    | ok pair =>
      rw [hE] at h
      simp only at h
      obtain ⟨okv, hsv⟩ := pair
      simp only at h
      cases hA1 : dictAttr fields (fieldName i)
          (fun f => { f with grade_points := some (if okv then cfg.points else 0) }) with
      | error e => rw [hA1] at h; exact Except.noConfusion h
      | ok st₁ =>
        rw [hA1] at h
        simp only at h
        cases hA2 : dictAttr st₁ (fieldName i)
            (fun f => { f with max_points := some cfg.points }) with
        | error e => rw [hA2] at h; exact Except.noConfusion h
        | ok st₂ =>
          rw [hA2] at h
          simp only at h
          cases hA3 : dictAttr st₂ (fieldName i)
              (fun f => { f with hints := some (String.intercalate " " hsv) }) with
          | error e => rw [hA3] at h; exact Except.noConfusion h
          | ok st₃ =>
            rw [hA3] at h
            simp only at h
            obtain ⟨hs1, hp1⟩ := dictAttr_ok hA1
            obtain ⟨hs2, _⟩ := dictAttr_ok hA2
            obtain ⟨hs3, _⟩ := dictAttr_ok hA3
            obtain ⟨fi₀, hfi₀⟩ := Option.isSome_iff_exists.mp hp1
            cases h
            refine ⟨rfl, rfl, ?_⟩
            rw [hs3, hs2, hs1, dictGet_dictUpd_self, dictGet_dictUpd_self,
              dictGet_dictUpd_self, hfi₀]
            exact ⟨_, rfl, rfl, rfl⟩
  · intro rm fields cd i cfg t o ht htbl h
    obtain ⟨s, nm, hTL, hln, hp1, hpnm, hnext, hok, hpts, hdict⟩ :=
      gradeField_table_run rm fields cd i cfg t o ht htbl h
    obtain ⟨hi, hp, hm, ha, hl⟩ :=
      tableGradeLoop_spec rm cd t cfg (cfg.rows.getD []) _ s hTL
    dsimp only at hi hp hm ha hl
    refine ⟨by rw [hnext, hi], by rw [hpts, hp], by rw [hok, ha, Bool.true_and], ?_⟩
    have hproj : (dictGet o.dict (fieldName i)).map
        (fun fi => (fi.grade_points, fi.max_points)) =
        some (some s.points, some s.max_points) := by
      rw [hdict, dictGet_proj_hints_upd, dictGet_dictUpd_self, dictGet_dictUpd_self]
      obtain ⟨fi₀, hfi₀⟩ := Option.isSome_iff_exists.mp hp1
      rw [hfi₀]
      rfl
    cases hget : dictGet o.dict (fieldName i) with
    | none => rw [hget] at hproj; exact Option.noConfusion hproj
    | some fi =>
      rw [hget] at hproj
      simp only [Option.map_some'] at hproj
      have hpair := Option.some.inj hproj
      refine ⟨fi, rfl, ?_, ?_⟩
      · rw [hpts]
        exact congrArg Prod.fst hpair
      · rw [← hm]
        exact congrArg Prod.snd hpair

def cfgC3s : FieldCfg :=
  { ftype := some "checkbox", title := some "T", points := 10,
    options := [{ label := some "A", correct := true }] }

def fldsC3s : FieldDict := [("field_0", { ftype := "checkbox", label := "T" })]

def cdC3s : String → Option PyVal :=
  fun n => if n = "field_0" then some (.list ["option_0"]) else none

def oC3s : GFOut :=
  { next := 1, ok := true, pts := 10,
    dict := [("field_0",
      { ftype := "checkbox", label := "T",
        grade_points := some 10, max_points := some 10, hints := some "" })] }

def cfgC3t : FieldCfg :=
  { ftype := some "table-checkbox", title := some "T", points := 0,
    options := [{ label := some "A" }],
    rows := some [{ label := some "r1", correct_options := [true], points := 2, hint := "h1" },
                  { label := some "r2", correct_options := [true], points := 3, hint := "h2" }] }

def fldsC3t : FieldDict :=
  [("field_0", { ftype := "table-checkbox", label := "T" }),
   ("field_1", { ftype := "table-checkbox", label := "T" })]

def cdC3t : String → Option PyVal :=
  fun n =>
    if n = "field_0" then some (.list [])
    else if n = "field_1" then some (.list ["option_0"]) else none

def oC3t : GFOut :=
  { next := 2, ok := false, pts := 3,
    dict := [("field_0",
      { ftype := "table-checkbox", label := "T",
        grade_points := some 3, max_points := some 5 }),
      ("field_1",
      { ftype := "table-checkbox", label := "T",
        hints := some "h1" })] }

/-- C3, counterexample to the claim as stated: a two-row table-checkbox
field with one wrong row is not fully correct yet is awarded 3 points
(neither zero nor its configured `points`, which is 0) — table fields earn
partial per-row credit. -/
theorem c3_counterexample :
    (gradeField (fun _ _ => false) fldsC3t cdC3t 0 cfgC3t).toOption.map
      (fun o => (o.ok, o.pts)) = some (false, 3) := rfl

/-- Witness: the amended C3 theorem applied to a concrete simple field and
a concrete table field. -/
theorem c3_witness :
    (oC3s.next = 0 + 1 ∧ oC3s.pts = (if oC3s.ok then cfgC3s.points else 0) ∧
      ∃ fi, dictGet oC3s.dict (fieldName 0) = some fi ∧
        fi.grade_points = some (if oC3s.ok then cfgC3s.points else 0) ∧
        fi.max_points = some cfgC3s.points)
    ∧ (oC3t.next = 0 + (cfgC3t.rows.getD []).length ∧
      oC3t.pts = cfgC3t.points + sumCorrectPts cdC3t "table-checkbox" cfgC3t 0 (cfgC3t.rows.getD []) ∧
      oC3t.ok = allRowsOk cdC3t "table-checkbox" cfgC3t 0 (cfgC3t.rows.getD []) ∧
      ∃ fi, dictGet oC3t.dict (fieldName 0) = some fi ∧
        fi.grade_points = some oC3t.pts ∧
        fi.max_points = some (cfgC3t.points + sumRowPts (cfgC3t.rows.getD []))) :=
  ⟨c3_points_amended.1 (fun _ _ => false) fldsC3s cdC3s 0 cfgC3s "checkbox" oC3s rfl
      (Or.inl rfl) (by rfl),
   c3_points_amended.2 (fun _ _ => false) fldsC3t cdC3t 0 cfgC3t "table-checkbox" oC3t rfl
      (Or.inr rfl) (by rfl)⟩

/-! ## Table hint attribution (C6) -/

/-- C6 (amended): for a table field with at least one row, the hints of all
failing rows are joined into one string attributed to the slot of the LAST
row (`field_(i + rows - 1)`), while with two or more rows the first row's
slot keeps its previous `hints` attribute untouched (it receives only
`grade_points` and `max_points`). -/
theorem c6_table_hints_amended (rm : String → String → Bool) (fields : FieldDict)
    (cd : String → Option PyVal) (i : Nat) (cfg : FieldCfg) (t : String) (o : GFOut)
    (ht : cfg.ftype = some t) (htbl : t = "table-radio" ∨ t = "table-checkbox")
    (hne : cfg.rows.getD [] ≠ [])
    (h : gradeField rm fields cd i cfg = .ok o) :
    (∃ fiL, dictGet o.dict (fieldName (i + (cfg.rows.getD []).length - 1)) = some fiL ∧
      fiL.hints.isSome)
    ∧ (2 ≤ (cfg.rows.getD []).length →
      ∀ fi₀, dictGet fields (fieldName i) = some fi₀ →
        ∃ fiF, dictGet o.dict (fieldName i) = some fiF ∧ fiF.hints = fi₀.hints ∧
          fiF.grade_points = some o.pts) := by
  obtain ⟨s, nm, hTL, hln, hp1, hpnm, hnext, hok, hpts, hdict⟩ :=
    gradeField_table_run rm fields cd i cfg t o ht htbl h
  obtain ⟨hi, hp, hm, ha, hl⟩ := tableGradeLoop_spec rm cd t cfg (cfg.rows.getD []) _ s hTL
  dsimp only at hi hp hm ha hl
  have hempty : (cfg.rows.getD []).isEmpty = false := by
    cases hr : cfg.rows.getD [] with
    | nil => exact absurd hr hne
    | cons a l => rfl
  rw [hempty] at hl
  simp only [Bool.false_eq_true, if_false] at hl
  have hnm : nm = fieldName (i + (cfg.rows.getD []).length - 1) := by
    rw [hln] at hl
    exact Option.some.inj hl
  subst hnm
  constructor
  · rw [hdict, dictGet_dictUpd_self]
    have hpres : (dictGet (dictUpd (dictUpd fields (fieldName i)
        (fun f => { f with grade_points := some s.points })) (fieldName i)
        (fun f => { f with max_points := some s.max_points }))
        (fieldName (i + (cfg.rows.getD []).length - 1))).isSome := by
      rw [dictGet_isSome_dictUpd, dictGet_isSome_dictUpd]
      exact hpnm
    obtain ⟨fi₂, hfi₂⟩ := Option.isSome_iff_exists.mp hpres
    rw [hfi₂]
    exact ⟨_, rfl, rfl⟩
  · intro h2 fi₀ hfi₀
    have hneq : fieldName (i + (cfg.rows.getD []).length - 1) ≠ fieldName i := by
      intro he
      have he2 := fieldName_injective he
      omega
    rw [hdict, dictGet_dictUpd_ne _ _ _ _ hneq, dictGet_dictUpd_self,
      dictGet_dictUpd_self, hfi₀]
    refine ⟨_, rfl, rfl, ?_⟩
    dsimp only
    rw [hpts]

/-- C6, counterexample to the claim as stated: grading the two-row table
field attaches the failing first row's hint to the SECOND (last) row's slot
`field_1`, while the first slot `field_0` gets no hints attribute. -/
theorem c6_counterexample :
    (gradeField (fun _ _ => false) fldsC3t cdC3t 0 cfgC3t).toOption.map
      (fun o => ((dictGet o.dict "field_0").map (fun f => f.hints),
                 (dictGet o.dict "field_1").map (fun f => f.hints))) =
      some (some none, some (some "h1")) := rfl

/-- Witness: the amended C6 theorem applied to the concrete two-row table
field. -/
theorem c6_witness :
    (∃ fiL, dictGet oC3t.dict (fieldName (0 + (cfgC3t.rows.getD []).length - 1)) = some fiL ∧
      fiL.hints.isSome)
    ∧ (2 ≤ (cfgC3t.rows.getD []).length →
      ∀ fi₀, dictGet fldsC3t (fieldName 0) = some fi₀ →
        ∃ fiF, dictGet oC3t.dict (fieldName 0) = some fiF ∧ fiF.hints = fi₀.hints ∧
          fiF.grade_points = some oC3t.pts) :=
  c6_table_hints_amended (fun _ _ => false) fldsC3t cdC3t 0 cfgC3t "table-checkbox" oC3t
    rfl (Or.inr rfl) (by decide) (by rfl)

/-! ## The diff-block parser (C9) -/

theorem splitChar_not_mem (sep : Char) :
    ∀ (s : List Char) (l : List Char), l ∈ splitChar sep s → sep ∉ l := by
  intro s
  induction s with
  | nil =>
    intro l hl
    simp only [splitChar, List.mem_singleton] at hl
    subst hl
    simp
  | cons c rest ih =>
    intro l hl
    simp only [splitChar] at hl
    cases hsp : splitChar sep rest with
    | nil =>
      rw [hsp] at hl
      simp only [List.mem_singleton] at hl
      subst hl
      simp
    | cons x xs =>
      rw [hsp] at hl
      dsimp only at hl
      by_cases hc : c = sep
      · rw [if_pos hc] at hl
        rcases List.mem_cons.mp hl with h1 | h1
        · subst h1; simp
        · exact ih l (by rw [hsp]; exact h1)
      · rw [if_neg hc] at hl
        rcases List.mem_cons.mp hl with h1 | h1
        · subst h1
          intro hmem
          rcases List.mem_cons.mp hmem with h2 | h2
          · exact hc h2.symm
          · exact ih x (by rw [hsp]; exact List.mem_cons_self x xs) h2
        · exact ih l (by rw [hsp]; exact List.mem_cons_of_mem x h1)

theorem append_sep_inj (sep : Char) :
    ∀ (x y u v : List Char), sep ∉ x → sep ∉ y →
      x ++ sep :: u = y ++ sep :: v → x = y ∧ u = v := by
  intro x
  induction x with
  | nil =>
    intro y u v hx hy h
    cases y with
    | nil =>
      rw [List.nil_append, List.nil_append] at h
      injection h with h1 h2
      exact ⟨rfl, h2⟩
    | cons b ys =>
      rw [List.nil_append, List.cons_append] at h
      injection h with h1 h2
      exact absurd (h1 ▸ List.mem_cons_self b ys) hy
  | cons a xs ih =>
    intro y u v hx hy h
    cases y with
    | nil =>
      rw [List.cons_append, List.nil_append] at h
      injection h with h1 h2
      exact absurd (h1 ▸ List.mem_cons_self a xs) hx
    | cons b ys =>
      rw [List.cons_append, List.cons_append] at h
      injection h with h1 h2
      have hx' : sep ∉ xs := fun hm => hx (List.mem_cons_of_mem a hm)
      have hy' : sep ∉ ys := fun hm => hy (List.mem_cons_of_mem b hm)
      obtain ⟨hxy, huv⟩ := ih ys u v hx' hy' h2
      exact ⟨by rw [h1, hxy], huv⟩

theorem joinChar_eq_cases (sep : Char) :
    ∀ (xs ys : List (List Char)),
      (∀ l ∈ xs, sep ∉ l) → (∀ l ∈ ys, sep ∉ l) →
      joinChar sep xs = joinChar sep ys → xs ≠ ys →
      (xs = [] ∧ ys = [[]]) ∨ (xs = [[]] ∧ ys = []) := by
  intro xs
  induction xs with
  | nil =>
    intro ys hx hy hj hne
    cases ys with
    | nil => exact absurd rfl hne
    | cons y ys' =>
      cases ys' with
      | nil =>
        simp only [joinChar] at hj
        left
        exact ⟨rfl, by rw [← hj]⟩
      | cons z zs =>
        simp only [joinChar] at hj
        exact absurd hj.symm (by simp)
  | cons x xs' ih =>
    intro ys hx hy hj hne
    cases ys with
    | nil =>
      cases xs' with
      | nil =>
        simp only [joinChar] at hj
        right
        exact ⟨by rw [hj], rfl⟩
      | cons w ws =>
        simp only [joinChar] at hj
        exact absurd hj (by simp)
    | cons y ys' =>
      cases xs' with
      | nil =>
        cases ys' with
        | nil =>
          simp only [joinChar] at hj
          exact absurd (by rw [hj]) hne
        | cons z zs =>
          simp only [joinChar] at hj
          have : sep ∈ x := by
            rw [hj]
            exact List.mem_append_right y (List.mem_cons_self sep _)
          exact absurd this (hx x (List.mem_cons_self x []))
      | cons w ws =>
        cases ys' with
        | nil =>
          simp only [joinChar] at hj
          have : sep ∈ y := by
            rw [← hj]
            exact List.mem_append_right x (List.mem_cons_self sep _)
          exact absurd this (hy y (List.mem_cons_self y []))
        | cons z zs =>
          simp only [joinChar] at hj
          obtain ⟨hxy, hJ⟩ := append_sep_inj sep x y _ _
            (hx x (List.mem_cons_self x _)) (hy y (List.mem_cons_self y _)) hj
          have hne' : (w :: ws) ≠ (z :: zs) := by
            intro he
            exact hne (by rw [hxy, he])
          obtain h | h := ih (z :: zs)
            (fun l hl => hx l (List.mem_cons_of_mem x hl))
            (fun l hl => hy l (List.mem_cons_of_mem y hl)) hJ hne'
          · exact absurd h.1 (by simp)
          · exact absurd h.2 (by simp)

/-- Soundness of one committed record's `fail` flag relative to its stored
texts: a text difference forces `fail`, and `fail` can accompany equal
texts only when both are empty. -/
def diffRecSound (r : DiffRec) : Prop :=
  (r.expected ≠ r.actual → r.fail = true) ∧
  (r.fail = true → r.expected ≠ r.actual ∨ (r.expected = "" ∧ r.actual = ""))

theorem mkDiffRec_sound (d e a : List (List Char))
    (he : ∀ l ∈ e, ('\n' : Char) ∉ l) (ha : ∀ l ∈ a, ('\n' : Char) ∉ l) :
    diffRecSound (mkDiffRec d e a) := by
  constructor
  · intro hne
    apply decide_eq_true
    intro hea
    exact hne (by rw [mkDiffRec, hea])
  · intro hf
    have hea : e ≠ a := of_decide_eq_true hf
    by_cases hstr : (mkDiffRec d e a).expected = (mkDiffRec d e a).actual
    · right
      have hjoin : joinChar '\n' e = joinChar '\n' a := string_mk_injective hstr
      obtain hcase | hcase := joinChar_eq_cases '\n' e a he ha hjoin hea
      · obtain ⟨h1, h2⟩ := hcase
        subst h1
        subst h2
        exact ⟨rfl, rfl⟩
      · obtain ⟨h1, h2⟩ := hcase
        subst h1
        subst h2
        exact ⟨rfl, rfl⟩
    · left
      exact hstr

theorem pdGo_ne_nil :
    ∀ (ls d e a : List (List Char)) (sec : DiffSection) (tests : List DiffRec),
      pdGo ls d e a sec tests ≠ [] := by
  intro ls
  induction ls with
  | nil => intro d e a sec tests; simp [pdGo]
  | cons l rest ih =>
    intro d e a sec tests
    simp only [pdGo]
    by_cases h1 : "Testcase:".data.isPrefixOf l = true
    · rw [if_pos h1]
      by_cases h2 : d ≠ [] ∧ e ≠ [] ∧ a ≠ []
      · rw [if_pos h2]; apply ih
      · rw [if_neg h2]; apply ih
    · rw [if_neg h1]
      by_cases h3 : "Expected:".data.isPrefixOf l = true
      · rw [if_pos h3]; apply ih
      · rw [if_neg h3]
        by_cases h4 : "Actual:".data.isPrefixOf l = true
        · rw [if_pos h4]; apply ih
        · rw [if_neg h4]
          cases sec <;> apply ih

theorem pdGo_all_sound :
    ∀ (ls d e a : List (List Char)) (sec : DiffSection) (tests : List DiffRec),
      (∀ l ∈ ls, ('\n' : Char) ∉ l) →
      (∀ l ∈ e, ('\n' : Char) ∉ l) → (∀ l ∈ a, ('\n' : Char) ∉ l) →
      (∀ r ∈ tests, diffRecSound r) →
      ∀ r ∈ pdGo ls d e a sec tests, diffRecSound r := by
  intro ls
  induction ls with
  | nil =>
    intro d e a sec tests _ he ha htests r hr
    simp only [pdGo] at hr
    rcases List.mem_append.mp hr with h | h
    · exact htests r h
    · rw [List.mem_singleton.mp h]
      exact mkDiffRec_sound d e a he ha
  | cons l rest ih =>
    intro d e a sec tests hls he ha htests r hr
    have hl : ('\n' : Char) ∉ l := hls l (List.mem_cons_self l rest)
    have hrest : ∀ l' ∈ rest, ('\n' : Char) ∉ l' :=
      fun l' hl' => hls l' (List.mem_cons_of_mem l hl')
    have hdrop : ∀ n : Nat, ('\n' : Char) ∉ l.drop n :=
      fun n hm => hl (List.drop_subset n l hm)
    have happ : ∀ (xs : List (List Char)) (n : Nat),
        (∀ l' ∈ xs, ('\n' : Char) ∉ l') →
        ∀ l' ∈ xs ++ [l.drop n], ('\n' : Char) ∉ l' := by
      intro xs n hxs l' hl'
      rcases List.mem_append.mp hl' with h | h
      · exact hxs l' h
      · rw [List.mem_singleton.mp h]
        exact hdrop n
    have happ2 : ∀ (xs : List (List Char)),
        (∀ l' ∈ xs, ('\n' : Char) ∉ l') →
        ∀ l' ∈ xs ++ [l], ('\n' : Char) ∉ l' := by
      intro xs hxs l' hl'
      rcases List.mem_append.mp hl' with h | h
      · exact hxs l' h
      · rw [List.mem_singleton.mp h]
        exact hl
    simp only [pdGo] at hr
    by_cases h1 : "Testcase:".data.isPrefixOf l = true
    · rw [if_pos h1] at hr
      by_cases h2 : d ≠ [] ∧ e ≠ [] ∧ a ≠ []
      · rw [if_pos h2] at hr
        refine ih _ _ _ _ _ hrest (by simp) (by simp) ?_ r hr
        intro r' hr'
        rcases List.mem_append.mp hr' with h | h
        · exact htests r' h
        · rw [List.mem_singleton.mp h]
          exact mkDiffRec_sound d e a he ha
      · rw [if_neg h2] at hr
        exact ih _ _ _ _ _ hrest he ha htests r hr
    · rw [if_neg h1] at hr
      by_cases h3 : "Expected:".data.isPrefixOf l = true
      · rw [if_pos h3] at hr
        exact ih _ _ _ _ _ hrest (happ e 10 he) ha htests r hr
      · rw [if_neg h3] at hr
        by_cases h4 : "Actual:".data.isPrefixOf l = true
        · rw [if_pos h4] at hr
          exact ih _ _ _ _ _ hrest he (happ a 8 ha) htests r hr
        · rw [if_neg h4] at hr
          cases sec with
          | desc => exact ih _ _ _ _ _ hrest he ha htests r hr
          | exp => exact ih _ _ _ _ _ hrest (happ2 e he) ha htests r hr
          | act => exact ih _ _ _ _ _ hrest he (happ2 a ha) htests r hr

/-- C9 (amended): the diff-block parser always commits the final record; a
new `Testcase:` line commits the record in progress only when all three
sections have received at least one line; each record's `fail` flag is set
whenever its expected and actual texts differ, and conversely a set `fail`
flag with equal texts occurs only when both texts are empty (one section
received a single empty marker line, the other none); the claim's example
yields two records with `fail` false then true, and `Testcase:` lines with
incomplete sections do not commit. -/
theorem c9_diff_blocks_spec :
    (∀ s : String, parseDifftests s ≠ [])
    ∧ (∀ (s : String) (r : DiffRec), r ∈ parseDifftests s →
        (r.expected ≠ r.actual → r.fail = true) ∧
        (r.fail = true → r.expected ≠ r.actual ∨ (r.expected = "" ∧ r.actual = "")))
    ∧ parseDifftests "Testcase: t1\nExpected: x\nActual: x\nTestcase: t2\nExpected: y\nActual: z" =
        [{ description := "t1", expected := "x", actual := "x", fail := false },
         { description := "t2", expected := "y", actual := "z", fail := true }]
    ∧ parseDifftests "Testcase: t1\nTestcase: t2\nExpected: y\nActual: z" =
        [{ description := "t1\nt2", expected := "y", actual := "z", fail := true }] := by
  refine ⟨?_, ?_, rfl, rfl⟩
  · intro s
    exact pdGo_ne_nil _ _ _ _ _ _
  · intro s r hr
    exact pdGo_all_sound (splitChar '\n' s.data) [] [] [] .act []
      (fun l hl => splitChar_not_mem '\n' s.data l hl)
      (by simp) (by simp) (by simp) r hr

/-- C9, counterexample to the claim as stated: the single marker line
`"Actual:"` produces a record whose `fail` flag is true although its
expected and actual texts are both empty, hence equal — `fail` compares the
accumulated line lists, not the texts. -/
theorem c9_counterexample :
    parseDifftests "Actual:" =
      [{ description := "", expected := "", actual := "", fail := true }] := rfl

/-- Witness: C9's per-record soundness applied to a concrete parsed
record. -/
theorem c9_witness :
    ((("y" : String) ≠ "z" → (true : Bool) = true) ∧
      ((true : Bool) = true → ("y" : String) ≠ "z" ∨ (("y" : String) = "" ∧ ("z" : String) = ""))) :=
  c9_diff_blocks_spec.2.1 "Testcase: t\nExpected: y\nActual: z"
    ⟨"t", "y", "z", true⟩ (by decide)

end MoocGrader
